import Mathlib

/-!
# Verification of the vacuum media-scoring core

A shallow embedding, in Lean 4, of the aggregation, scoring, episode-cache
and history-reconciliation core of the `vacuum` repository, together with
proofs of the specification's claims about it.

Modelling conventions:

* JavaScript numbers are modelled as exact rationals (`ℚ`).  All arithmetic
  appearing in the embedded code is either exact on the inputs considered or
  guarded (no division by zero on live paths); `NaN`/`Infinity` are not
  representable, and where a JS coercion (`Number(...)`, truthiness, `|| 0`)
  matters it is modelled explicitly at the point of use.
* `Date` values are modelled by their millisecond epoch value (`ℚ`); a JS
  `Date` object is always truthy, so `Date | null` becomes `Option ℚ` with
  truthiness = `isSome`.
* Nullable fields (`T | null | undefined`) are modelled as `Option`.
* `Math.log10` is transcendental; it is threaded through the scoring entry
  point as an explicit function parameter `log10 : ℚ → ℚ`.  No claim below
  depends on its values.
* A JS `Map` preserves insertion order; it is modelled as a list of entries,
  updated in place and appended at the end for fresh keys.  A JS `Set` of
  strings is modelled as a duplicate-free list in insertion order.
-/

namespace Vacuum

/-- `clamp` from `scoring.ts` / the aggregation module:
`Math.min(Math.max(value, min), max)`. -/
def clamp (value lo hi : ℚ) : ℚ :=
  min (max value lo) hi

/-! ## Data model (`types.ts`) -/

/-- `MediaKind = "movie" | "season"` — the kind of a logical unit. -/
inductive MediaKind where
  | movie
  | season
deriving DecidableEq, Repr

/-- The kind of a source item: `MediaKind | "episode"`. -/
inductive SourceKind where
  | movie
  | season
  | episode
deriving DecidableEq, Repr

/-- `MediaSource` — one physical file (movie or episode).  Numeric fields are
rationals, `Date` fields are epoch milliseconds. -/
structure MediaSource where
  id : String
  title : String
  path : String
  sizeBytes : ℚ
  addedAt : ℚ
  lastPlayedAt : Option ℚ
  playCount : ℚ
  seasonTitle : Option String
  showTitle : Option String
  seasonKey : Option String
  showKey : Option String
  librarySectionId : ℚ
  librarySectionName : String
  mediaKind : SourceKind
deriving DecidableEq, Repr

/-- `MediaUnit` — the rankable aggregate (a movie, or a TV season). -/
structure MediaUnit where
  id : String
  kind : MediaKind
  title : String
  parentTitle : Option String
  librarySectionId : ℚ
  librarySectionName : String
  sizeBytes : ℚ
  addedAt : ℚ
  lastPlayedAt : Option ℚ
  totalPlayCount : ℚ
  maxItemPlayCount : ℚ
  itemsWithPlays : ℚ
  itemCount : ℚ
  paths : List String
  sourceItems : List MediaSource
deriving DecidableEq, Repr

/-! ## Aggregator (`aggregate.ts`, `aggregateMediaUnits`) -/

/-- The record returned by `determineUnitIdentity`. -/
structure UnitIdentity where
  key : String
  kind : MediaKind
  title : String
  parentTitle : Option String
deriving DecidableEq, Repr

/-- `determineUnitIdentity`: a movie keys by its own id; an episode (or
season-kind source) keys by `seasonKey ?? showKey ?? id`, titled
`seasonTitle ?? title`, with the show title as parent. -/
def determineUnitIdentity (source : MediaSource) : UnitIdentity :=
  if source.mediaKind = SourceKind.movie then
    { key := source.id
      kind := MediaKind.movie
      title := source.title
      parentTitle := none }
  else
    { key := (source.seasonKey.or source.showKey).getD source.id
      kind := MediaKind.season
      title := source.seasonTitle.getD source.title
      parentTitle := source.showTitle }

/-- The grouping key `determineUnitIdentity` assigns to a source. -/
def unitKey (source : MediaSource) : String :=
  (determineUnitIdentity source).key

/-- `AggregatedUnitBuilder` — the mutable accumulator stored in the `Map`. -/
structure AggregatedUnitBuilder where
  id : String
  kind : MediaKind
  title : String
  parentTitle : Option String
  librarySectionId : ℚ
  librarySectionName : String
  sizeBytes : ℚ
  addedAt : ℚ
  lastPlayedAt : Option ℚ
  totalPlayCount : ℚ
  maxItemPlayCount : ℚ
  itemsWithPlays : ℚ
  itemCount : ℚ
  paths : List String
  sourceItems : List MediaSource
deriving DecidableEq, Repr

/-- The freshly created builder for the first source of a key
(the object literal at the `builder === undefined` branch). -/
def freshBuilder (source : MediaSource) (idy : UnitIdentity) : AggregatedUnitBuilder :=
  { id := idy.key
    kind := idy.kind
    title := idy.title
    parentTitle := idy.parentTitle
    librarySectionId := source.librarySectionId
    librarySectionName := source.librarySectionName
    sizeBytes := 0
    addedAt := source.addedAt
    lastPlayedAt := source.lastPlayedAt
    totalPlayCount := 0
    maxItemPlayCount := 0
    itemsWithPlays := 0
    itemCount := 0
    paths := []
    sourceItems := [] }

/-- The in-place accumulation a source performs on its builder (the statement
block after the lookup in `aggregateMediaUnits`, including the kind-specific
`parentTitle` refresh). -/
def mergeInto (b : AggregatedUnitBuilder) (source : MediaSource)
    (idy : UnitIdentity) : AggregatedUnitBuilder :=
  { b with
    sizeBytes := b.sizeBytes + source.sizeBytes
    addedAt := if source.addedAt < b.addedAt then source.addedAt else b.addedAt
    lastPlayedAt :=
      match source.lastPlayedAt, b.lastPlayedAt with
      | some t, none => some t
      | some t, some v => if t > v then some t else some v
      | none, cur => cur
    totalPlayCount := b.totalPlayCount + source.playCount
    maxItemPlayCount := max b.maxItemPlayCount source.playCount
    itemsWithPlays := if source.playCount > 0 then b.itemsWithPlays + 1 else b.itemsWithPlays
    itemCount := b.itemCount + 1
    paths := if source.path ∈ b.paths then b.paths else b.paths ++ [source.path]
    sourceItems := b.sourceItems ++ [source]
    parentTitle :=
      if idy.kind = MediaKind.season then idy.parentTitle.or b.parentTitle
      else b.parentTitle }

/-- Merge a source into its builder, computing the identity itself. -/
def mergeStep (b : AggregatedUnitBuilder) (source : MediaSource) : AggregatedUnitBuilder :=
  mergeInto b source (determineUnitIdentity source)

/-- Update the first builder whose `id` is `k` (JS `Map` update-in-place). -/
def updateFirst (k : String) (f : AggregatedUnitBuilder → AggregatedUnitBuilder) :
    List AggregatedUnitBuilder → List AggregatedUnitBuilder
  | [] => []
  | b :: bs => if b.id = k then f b :: bs else b :: updateFirst k f bs

/-- Lookup in the builder map (JS `map.get(key)`). -/
def findB (m : List AggregatedUnitBuilder) (k : String) : Option AggregatedUnitBuilder :=
  m.find? (fun b => b.id = k)

/-- One iteration of the `for (const source of sources)` loop. -/
def aggStep (m : List AggregatedUnitBuilder) (source : MediaSource) :
    List AggregatedUnitBuilder :=
  let idy := determineUnitIdentity source
  match findB m idy.key with
  | some _ => updateFirst idy.key (fun b => mergeInto b source idy) m
  | none => m ++ [mergeInto (freshBuilder source idy) source idy]

/-- The final projection of a builder to a `MediaUnit`
(`Array.from(map.values()).map(builder => ({...}))`). -/
def finalizeB (b : AggregatedUnitBuilder) : MediaUnit :=
  { id := b.id
    kind := b.kind
    title := b.title
    parentTitle := b.parentTitle
    librarySectionId := b.librarySectionId
    librarySectionName := b.librarySectionName
    sizeBytes := b.sizeBytes
    addedAt := b.addedAt
    lastPlayedAt := b.lastPlayedAt
    totalPlayCount := b.totalPlayCount
    maxItemPlayCount := b.maxItemPlayCount
    itemsWithPlays := b.itemsWithPlays
    itemCount := b.itemCount
    paths := b.paths
    sourceItems := b.sourceItems }

/-- `aggregateMediaUnits`: fold all sources through the keyed builder map,
then project every builder to a unit, in insertion order. -/
def aggregateMediaUnits (sources : List MediaSource) : List MediaUnit :=
  ((sources.foldl aggStep []).map finalizeB)

/-- The builder a whole key-group folds to: the fresh builder of the first
source of the group, merged with every source of the group in order. -/
def buildGroup (s : MediaSource) (rest : List MediaSource) : AggregatedUnitBuilder :=
  (s :: rest).foldl mergeStep (freshBuilder s (determineUnitIdentity s))

/-! ## ScoringEngine (`score.ts`, the three-factor composite version)

The repository carries two evolutionary versions of the scoring module; the
spec (§9) designates the three-factor composite (the one whose
`computeWatchScarcity` combines plays-per-year, plays-per-GB and coverage
scarcity) as the intended design, and the claims' formulas match that
version.  That version is embedded here. -/

/-- `YEAR_IN_MS = 1000 * 60 * 60 * 24 * 365.25` (exactly 31557600000). -/
def YEAR_IN_MS : ℚ := 1000 * 60 * 60 * 24 * (36525 / 100)

/-- `WeightConfig`. -/
structure WeightConfig where
  sizeWeight : ℚ
  ageWeight : ℚ
  watchWeight : ℚ
deriving DecidableEq, Repr

/-- `defaultWeights = { sizeWeight: 0.2, ageWeight: 0.4, watchWeight: 0.4 }`. -/
def defaultWeights : WeightConfig :=
  { sizeWeight := 2 / 10, ageWeight := 4 / 10, watchWeight := 4 / 10 }

/-- `ScoringMetrics`. -/
structure ScoringMetrics where
  sizeScore : ℚ
  ageScore : ℚ
  watchScarcityScore : ℚ
  playsPerYear : ℚ
  playsPerGb : ℚ
  coverageRatio : ℚ
  ageYears : ℚ
deriving DecidableEq, Repr

/-- `ScoredMediaUnit extends MediaUnit` — the spread `{...item, metrics, score}`
copies every `MediaUnit` field unchanged and adds the two new ones. -/
structure ScoredMediaUnit extends MediaUnit where
  metrics : ScoringMetrics
  score : ℚ
deriving DecidableEq, Repr

/-- `ScoreOptions`.  The optional `now` (defaulting to the ambient clock
`new Date()`) is modelled as a required reference instant. -/
structure ScoreOptions where
  weights : Option WeightConfig
  now : ℚ
  targetPlaysPerYear : Option ℚ
  saturationAgeYears : Option ℚ
  targetPlaysPerGb : Option ℚ
deriving Repr

/-- `normalizeSize`: logarithmic normalization against the batch maximum. -/
def normalizeSize (log10 : ℚ → ℚ) (size maxSize : ℚ) : ℚ :=
  let adjustedSize := log10 (size + 1)
  let adjustedMax := log10 (maxSize + 1)
  if adjustedMax = 0 then 0
  else clamp (adjustedSize / adjustedMax) 0 1

/-- `computePlaysPerYear`: plays over age, with the age floored at 0.25. -/
def computePlaysPerYear (playCount ageYears : ℚ) : ℚ :=
  let effectiveAge := max ageYears (1 / 4)
  playCount / effectiveAge

/-- `computePlaysPerGb`: plays over size in GiB, 0 for non-positive sizes. -/
def computePlaysPerGb (playCount sizeBytes : ℚ) : ℚ :=
  let sizeGb := if sizeBytes > 0 then sizeBytes / 1024 ^ 3 else 0
  if sizeGb ≤ 0 then 0
  else playCount / sizeGb

/-- `computeWatchScarcity`: the three-factor composite scarcity, damped by
the age multiplier `0.5 + 0.5·normalizedAge`. -/
def computeWatchScarcity (playsPerYear normalizedAge targetPlaysPerYear
    playsPerGb targetPlaysPerGb coverageRatio : ℚ) : ℚ :=
  let playsPerYearScarcity := clamp (1 - playsPerYear / targetPlaysPerYear) 0 1
  let playsPerGbScarcity := clamp (1 - playsPerGb / targetPlaysPerGb) 0 1
  let coverageScarcity := clamp (1 - coverageRatio) 0 1
  let compositeScarcity :=
    playsPerYearScarcity * (5 / 10) + playsPerGbScarcity * (3 / 10) +
      coverageScarcity * (2 / 10)
  let ageMultiplier := 5 / 10 + normalizedAge * (5 / 10)
  clamp (compositeScarcity * ageMultiplier) 0 1

/-- `computeMetrics` for one unit. -/
def computeMetrics (log10 : ℚ → ℚ) (item : MediaUnit) (now maxSize
    targetPlaysPerYear saturationAgeYears targetPlaysPerGb : ℚ) : ScoringMetrics :=
  let ageMs := now - item.addedAt
  let ageYears := max (ageMs / YEAR_IN_MS) 0
  let normalizedAge := clamp (ageYears / saturationAgeYears) 0 1
  let sizeScore := normalizeSize log10 item.sizeBytes maxSize
  let playsPerYear := computePlaysPerYear item.totalPlayCount ageYears
  let playsPerGb := computePlaysPerGb item.totalPlayCount item.sizeBytes
  let coverageRatio := if item.itemCount = 0 then 0 else item.itemsWithPlays / item.itemCount
  let watchScarcity := computeWatchScarcity playsPerYear normalizedAge
    targetPlaysPerYear playsPerGb targetPlaysPerGb coverageRatio
  { sizeScore := sizeScore
    ageScore := normalizedAge
    watchScarcityScore := watchScarcity
    playsPerYear := playsPerYear
    playsPerGb := playsPerGb
    coverageRatio := coverageRatio
    ageYears := ageYears }

/-- The annotated (not yet sorted) scored unit built in the `.map` callback. -/
def annotateUnit (log10 : ℚ → ℚ) (weights : WeightConfig) (now maxSize
    targetPlaysPerYear saturationAgeYears targetPlaysPerGb : ℚ)
    (item : MediaUnit) : ScoredMediaUnit :=
  let metrics := computeMetrics log10 item now maxSize targetPlaysPerYear
    saturationAgeYears targetPlaysPerGb
  { toMediaUnit := item
    metrics := metrics
    score := metrics.sizeScore * weights.sizeWeight +
      metrics.ageScore * weights.ageWeight +
      metrics.watchScarcityScore * weights.watchWeight }

/-- Stable insertion of a scored unit in front of the first element whose
score it matches or exceeds.  `Array.prototype.sort` with the comparator
`(a, b) => b.score - a.score` is required by ECMAScript to be a stable sort;
on a consistent comparator its result is the unique permutation that is
non-increasing in `score` and preserves input order among equal scores,
which is exactly what this insertion produces. -/
def insertScored (x : ScoredMediaUnit) : List ScoredMediaUnit → List ScoredMediaUnit
  | [] => [x]
  | y :: l => if y.score ≤ x.score then x :: y :: l else y :: insertScored x l

/-- The stable descending-by-score sort (`.sort((a, b) => b.score - a.score)`). -/
def sortByScoreDesc : List ScoredMediaUnit → List ScoredMediaUnit
  | [] => []
  | x :: l => insertScored x (sortByScoreDesc l)

/-- `scoreMediaItems` (three-factor version): annotate every unit with its
metrics and weighted score, then sort by descending score. -/
def scoreMediaItems (log10 : ℚ → ℚ) (items : List MediaUnit)
    (options : ScoreOptions) : List ScoredMediaUnit :=
  let weights := options.weights.getD defaultWeights
  let now := options.now
  let targetPlaysPerYear := options.targetPlaysPerYear.getD (5 / 10)
  let saturationAgeYears := options.saturationAgeYears.getD 5
  let targetPlaysPerGb := options.targetPlaysPerGb.getD (2 / 100)
  let maxSize := (items.map (fun item => item.sizeBytes)).foldl max 1
  sortByScoreDesc (items.map (annotateUnit log10 weights now maxSize
    targetPlaysPerYear saturationAgeYears targetPlaysPerGb))

/-! ## EpisodeCache (`tautulli-client.ts`, `EpisodeCache`)

The SQLite table `episode_cache(show_key PRIMARY KEY, show_updated_at,
fetched_at, payload)` is modelled as an association list with at most one row
per key (the primary key makes `INSERT ... ON CONFLICT DO UPDATE` an upsert
and `DELETE WHERE show_key = ?` remove that one row).  `payload` is a `TEXT`
column holding `JSON.stringify(episodes)`; it is modelled as
`Option (List CachedEpisode)`, where `some eps` stands for text that
`JSON.parse`s back to `eps` (stringify/parse round-trips the plain
string/number/null records involved) and `none` for corrupt text that throws
in `JSON.parse`.  `Date.now()` is passed in explicitly as `now` (epoch ms);
`fetched_at` is an `INTEGER` column, so the `Number.isFinite` re-check in
`load` is always true in the model. -/

/-- `CachedEpisode` — the per-episode record round-tripped by the cache
(`media_type` is the constant `"episode"` and is omitted). -/
structure CachedEpisode where
  rating_key : String
  title : String
  parent_rating_key : Option String
  parent_title : Option String
  grandparent_rating_key : Option String
  grandparent_title : Option String
  file : Option String
  added_at : Option ℚ
  last_played : Option ℚ
  play_count : Option ℚ
  media_index : Option ℚ
  season_index : Option ℚ
  section_id : ℚ
  section_name : String
  year : Option ℚ
deriving DecidableEq, Repr

/-- One stored row of `episode_cache`. -/
structure CacheRow where
  show_updated_at : ℚ
  fetched_at : ℚ
  payload : Option (List CachedEpisode)
deriving DecidableEq, Repr

/-- The cache database state: at most one row per show key. -/
abbrev CacheState : Type :=
  List (String × CacheRow)

/-- `CACHE_TTL_MS = 1000 * 60 * 60 * 24 * 7` (7 days). -/
def CACHE_TTL_MS : ℚ := 1000 * 60 * 60 * 24 * 7

/-- `SELECT ... WHERE show_key = ?`. -/
def dbGet (st : CacheState) (k : String) : Option CacheRow :=
  (st.find? (fun r => r.1 = k)).map (fun r => r.2)

/-- `DELETE FROM episode_cache WHERE show_key = ?`. -/
def dbDelete (st : CacheState) (k : String) : CacheState :=
  st.filter (fun r => r.1 ≠ k)

/-- `INSERT ... ON CONFLICT(show_key) DO UPDATE` — replace the row for `k`
if present, else append. -/
def dbUpsert (st : CacheState) (k : String) (row : CacheRow) : CacheState :=
  if (st.find? (fun r => r.1 = k)).isSome then
    st.map (fun r => if r.1 = k then (k, row) else r)
  else st ++ [(k, row)]

/-- `EpisodeCache.load(showKey, showUpdatedAt)` at instant `now`: returns the
parsed payload and the possibly-pruned state.  A row with a mismatched
freshness token, an expired age, or an unparsable payload is deleted and the
load reports a miss. -/
def cacheLoad (st : CacheState) (showKey : String) (showUpdatedAt now : ℚ) :
    Option (List CachedEpisode) × CacheState :=
  match dbGet st showKey with
  | none => (none, st)
  | some row =>
    if row.show_updated_at ≠ showUpdatedAt then (none, dbDelete st showKey)
    else if now - row.fetched_at > CACHE_TTL_MS then (none, dbDelete st showKey)
    else
      match row.payload with
      | some parsed => (some parsed, st)
      | none => (none, dbDelete st showKey)

/-- `Number(x) || 0` applied to a finite number `x` (the `normalizedUpdatedAt`
in `save`): `0` stays `0` and any other finite value is itself. -/
def jsOrZero (q : ℚ) : ℚ :=
  if q = 0 then 0 else q

/-- `EpisodeCache.save(showKey, showUpdatedAt, episodes)` at instant `now`. -/
def cacheSave (st : CacheState) (showKey : String) (showUpdatedAt : ℚ)
    (episodes : List CachedEpisode) (now : ℚ) : CacheState :=
  dbUpsert st showKey
    { show_updated_at := jsOrZero showUpdatedAt
      fetched_at := now
      payload := some episodes }

/-! ## HistoryReconciler (`tautulli-client.ts`, `getShowEpisodeHistory`)

The paging loop issues `get_history` requests and folds each page's entries
into a `Map<string, EpisodeHistoryStat>`; which pages are visited is decided
by the transport (page length vs. `HISTORY_PAGE_SIZE`, the server-reported
total, and fetch failures, which abort paging but keep what was accumulated).
The fold itself is embedded here over the list of visited pages.

Field modelling: `rating_key`/`parent_rating_key`/`grandparent_rating_key`
are `Option String` (`none` = null/undefined; numeric keys are modelled by
their decimal strings).  `group_count` is `Option ℚ`: `some c` when
`Number(group_count)` is the finite `c`, `none` when it is `NaN`
(undefined or an unparsable string; `null` coerces to `0`, which the
normalizer treats the same as `none`).  `stopped`/`date` are
`Option (Option ℚ)`: the outer level is JS nullishness (consumed by `??`),
the inner level is `toNullableNumber`'s result on the present value. -/

/-- One raw history row. -/
structure HistoryEntry where
  rating_key : Option String
  parent_rating_key : Option String
  grandparent_rating_key : Option String
  group_count : Option ℚ
  stopped : Option (Option ℚ)
  date : Option (Option ℚ)
deriving DecidableEq, Repr

/-- `EpisodeHistoryStat`. -/
structure EpisodeHistoryStat where
  playCount : ℚ
  lastPlayed : Option ℚ
deriving DecidableEq, Repr

/-- `normalizeHistoryCount`: an unparsable or non-positive count is `1`,
otherwise the floor of the count. -/
def normalizeHistoryCount (value : Option ℚ) : ℚ :=
  match value with
  | none => 1
  | some count => if count ≤ 0 then 1 else (⌊count⌋ : ℚ)

/-- The identifier an entry folds under:
`entry.rating_key ?? entry.parent_rating_key ?? entry.grandparent_rating_key`,
then discarded when falsy (absent or the empty string). -/
def entryKey (e : HistoryEntry) : Option String :=
  match (e.rating_key.or (e.parent_rating_key.or e.grandparent_rating_key)) with
  | none => none
  | some k => if k = "" then none else some k

/-- `toNullableNumber(entry.stopped ?? entry.date)`. -/
def entryStopped (e : HistoryEntry) : Option ℚ :=
  match e.stopped.or e.date with
  | none => none
  | some v => v

/-- The stats map (JS `Map`, insertion-ordered association list). -/
abbrev StatsMap : Type :=
  List (String × EpisodeHistoryStat)

/-- Update the first stat entry for `k`. -/
def updateStat (k : String) (f : EpisodeHistoryStat → EpisodeHistoryStat) :
    StatsMap → StatsMap
  | [] => []
  | p :: ps => if p.1 = k then (p.1, f p.2) :: ps else p :: updateStat k f ps

/-- Lookup in the stats map. -/
def findStat (m : StatsMap) (k : String) : Option EpisodeHistoryStat :=
  (m.find? (fun p => p.1 = k)).map (fun p => p.2)

/-- The `lastPlayed` update of an existing stat:
`if (stopped && (!existing.lastPlayed || stopped > existing.lastPlayed))
   existing.lastPlayed = stopped`.
`stopped` and `existing.lastPlayed` are `number | null`, so the truthiness
tests also treat a zero timestamp as absent. -/
def statLastStep (cur stopped : Option ℚ) : Option ℚ :=
  match stopped with
  | none => cur
  | some s =>
    if s = 0 then cur
    else
      match cur with
      | none => some s
      | some v => if v = 0 then some s else if s > v then some s else some v

/-- The body of `for (const entry of entries)`: fold one history row in. -/
def historyStep (m : StatsMap) (e : HistoryEntry) : StatsMap :=
  match entryKey e with
  | none => m
  | some key =>
    let plays := normalizeHistoryCount e.group_count
    let stopped := entryStopped e
    match findStat m key with
    | some _ =>
      updateStat key (fun ex =>
        { playCount := ex.playCount + plays
          lastPlayed := statLastStep ex.lastPlayed stopped }) m
    | none => m ++ [(key, { playCount := plays, lastPlayed := stopped })]

/-- `getShowEpisodeHistory`, as a fold of the visited pages' entries into the
stats map (page boundaries do not affect the fold). -/
def getShowEpisodeHistory (pages : List (List HistoryEntry)) : StatsMap :=
  pages.foldl (fun m entries => entries.foldl historyStep m) []

/-! ## Spec-side definitions

Definitions written from the specification's words, used to state claims
that compare the code against the spec's description. -/

/-- Spec-side grouping key (claim C9): a movie keys by its own identifier;
otherwise the season identifier when non-null, else the show identifier when
non-null, else the source's own identifier. -/
def claimGroupKey (source : MediaSource) : String :=
  if source.mediaKind = SourceKind.movie then source.id
  else
    match source.seasonKey with
    | some k => k
    | none =>
      match source.showKey with
      | some k => k
      | none => source.id

/-- Spec-side unit kind (claim C9): movie for a movie source, season
otherwise. -/
def claimUnitKind (source : MediaSource) : MediaKind :=
  if source.mediaKind = SourceKind.movie then MediaKind.movie
  else MediaKind.season

/-- The constituent sources of the unit keyed `k`. -/
def constituentsOf (sources : List MediaSource) (k : String) : List MediaSource :=
  sources.filter (fun s => unitKey s = k)

/-- The builder the key `k` ends up with: the fold of its constituents,
or nothing when `k` owns no constituent. -/
def groupBuildFor (sources : List MediaSource) (k : String) :
    Option AggregatedUnitBuilder :=
  match constituentsOf sources k with
  | [] => none
  | s :: rest => some (buildGroup s rest)

/-- The running maximum of nullable numbers, as folded by the
`lastPlayedAt` merge rule. -/
def omax (cur : Option ℚ) (t : ℚ) : Option ℚ :=
  some (match cur with
    | none => t
    | some v => max v t)

/-- View a nullable number as a `WithBot ℚ` (for stating min/max claims). -/
def toWithBot (v : Option ℚ) : WithBot ℚ :=
  match v with
  | none => ⊥
  | some q => (q : WithBot ℚ)

/-- The history entries of `pages` that fold under identifier `k`. -/
def historyEntriesFor (pages : List (List HistoryEntry)) (k : String) :
    List HistoryEntry :=
  pages.flatten.filter (fun e => entryKey e = some k)

/-- The parsed `stopped ?? date` timestamps of a list of entries. -/
def seenTimestamps (entries : List HistoryEntry) : List ℚ :=
  entries.filterMap entryStopped

/-- The stat a fresh history row opens with. -/
def initStat (e : HistoryEntry) : EpisodeHistoryStat :=
  { playCount := normalizeHistoryCount e.group_count
    lastPlayed := entryStopped e }

/-- The stat accumulation one further history row performs. -/
def statFold (st : EpisodeHistoryStat) (e : HistoryEntry) : EpisodeHistoryStat :=
  { playCount := st.playCount + normalizeHistoryCount e.group_count
    lastPlayed := statLastStep st.lastPlayed (entryStopped e) }

/-- The stat the identifier `k` ends up with: the fold of its own history
rows, or nothing when no row folds under `k`. -/
def groupStatFor (pages : List (List HistoryEntry)) (k : String) :
    Option EpisodeHistoryStat :=
  match historyEntriesFor pages k with
  | [] => none
  | e :: es => some (es.foldl statFold (initStat e))

/-- The annotated, not-yet-sorted scored list built inside `scoreMediaItems`
(named so that stability can be stated against it). -/
def annotatedUnits (log10 : ℚ → ℚ) (items : List MediaUnit)
    (options : ScoreOptions) : List ScoredMediaUnit :=
  let weights := options.weights.getD defaultWeights
  let now := options.now
  let targetPlaysPerYear := options.targetPlaysPerYear.getD (5 / 10)
  let saturationAgeYears := options.saturationAgeYears.getD 5
  let targetPlaysPerGb := options.targetPlaysPerGb.getD (2 / 100)
  let maxSize := (items.map (fun item => item.sizeBytes)).foldl max 1
  items.map (annotateUnit log10 weights now maxSize
    targetPlaysPerYear saturationAgeYears targetPlaysPerGb)

/-! ### Concrete witness data -/

/-- A concrete movie unit (1 GiB, 2 plays, added 10 years before `wOptions.now`). -/
def wUnit : MediaUnit :=
  { id := "m1"
    kind := MediaKind.movie
    title := "M"
    parentTitle := none
    librarySectionId := 1
    librarySectionName := "Movies"
    sizeBytes := 1024 ^ 3
    addedAt := 0
    lastPlayedAt := none
    totalPlayCount := 2
    maxItemPlayCount := 2
    itemsWithPlays := 1
    itemCount := 1
    paths := ["/m1"]
    sourceItems := [] }

/-- Concrete scoring options: all tunables defaulted, `now` ten years in. -/
def wOptions : ScoreOptions :=
  { weights := none
    now := YEAR_IN_MS * 10
    targetPlaysPerYear := none
    saturationAgeYears := none
    targetPlaysPerGb := none }

/-- The scored unit `scoreMediaItems` produces for the batch `[wUnit]`. -/
def wScored : ScoredMediaUnit :=
  annotateUnit (fun _ => 0) defaultWeights wOptions.now
    (([wUnit].map (fun item => item.sizeBytes)).foldl max 1)
    (5 / 10) 5 (2 / 100) wUnit

/-- A concrete episode source (season key `S1`, no season title). -/
def wSrcA : MediaSource :=
  { id := "a"
    title := "A"
    path := "/a"
    sizeBytes := 5
    addedAt := 100
    lastPlayedAt := none
    playCount := 0
    seasonTitle := none
    showTitle := some "Show"
    seasonKey := some "S1"
    showKey := some "SH"
    librarySectionId := 1
    librarySectionName := "TV"
    mediaKind := SourceKind.episode }

/-- A second episode source sharing `wSrcA`'s season key. -/
def wSrcB : MediaSource :=
  { id := "b"
    title := "B"
    path := "/b"
    sizeBytes := 7
    addedAt := 50
    lastPlayedAt := some 9
    playCount := 3
    seasonTitle := none
    showTitle := some "Show"
    seasonKey := some "S1"
    showKey := some "SH"
    librarySectionId := 1
    librarySectionName := "TV"
    mediaKind := SourceKind.episode }

/-- The single unit aggregated from `[wSrcA, wSrcB]`. -/
def wAggUnitAB : MediaUnit :=
  finalizeB (buildGroup wSrcA [wSrcB])

/-- The single unit aggregated from `[wSrcB, wSrcA]`. -/
def wAggUnitBA : MediaUnit :=
  finalizeB (buildGroup wSrcB [wSrcA])

/-- A movie source whose id collides with an episode's season key. -/
def wMovie : MediaSource :=
  { id := "X"
    title := "Movie X"
    path := "/x"
    sizeBytes := 1
    addedAt := 10
    lastPlayedAt := none
    playCount := 0
    seasonTitle := none
    showTitle := none
    seasonKey := none
    showKey := none
    librarySectionId := 2
    librarySectionName := "Movies"
    mediaKind := SourceKind.movie }

/-- An episode source whose season key collides with `wMovie`'s id. -/
def wEpX : MediaSource :=
  { id := "e1"
    title := "Ep 1"
    path := "/e1"
    sizeBytes := 2
    addedAt := 20
    lastPlayedAt := none
    playCount := 1
    seasonTitle := some "Season X"
    showTitle := some "Show X"
    seasonKey := some "X"
    showKey := some "SX"
    librarySectionId := 3
    librarySectionName := "TV"
    mediaKind := SourceKind.episode }

/-- A concrete valid cache row. -/
def wRow : CacheRow :=
  { show_updated_at := 42
    fetched_at := 1000
    payload := some [] }

/-- A history row for `E1` with group count 3 at timestamp 500. -/
def wHist1 : HistoryEntry :=
  { rating_key := some "E1"
    parent_rating_key := none
    grandparent_rating_key := none
    group_count := some 3
    stopped := some (some 500)
    date := none }

/-- An older history row for `E1` with group count 2 at timestamp 400. -/
def wHist2 : HistoryEntry :=
  { rating_key := some "E1"
    parent_rating_key := none
    grandparent_rating_key := none
    group_count := some 2
    stopped := some (some 400)
    date := none }

/-- A history row for `E1` stopped at timestamp 0 (a falsy timestamp). -/
def wHistZero : HistoryEntry :=
  { rating_key := some "E1"
    parent_rating_key := none
    grandparent_rating_key := none
    group_count := some 1
    stopped := some (some 0)
    date := none }

/-- A history row for `E1` stopped at a negative timestamp. -/
def wHistNeg : HistoryEntry :=
  { rating_key := some "E1"
    parent_rating_key := none
    grandparent_rating_key := none
    group_count := some 1
    stopped := some (some (-5))
    date := none }

/-! ## Proof development -/

theorem scoreMediaItems_eq_sort_annotated (log10 : ℚ → ℚ) (items : List MediaUnit)
    (options : ScoreOptions) :
    scoreMediaItems log10 items options = sortByScoreDesc (annotatedUnits log10 items options) :=
  rfl

theorem perm_insertScored (x : ScoredMediaUnit) (l : List ScoredMediaUnit) :
    (insertScored x l).Perm (x :: l) := by
  induction l with
  | nil => exact List.Perm.refl _
  | cons y l ih =>
    by_cases h : y.score ≤ x.score
    · simp [insertScored, h]
    · simp only [insertScored, if_neg h]
      exact (ih.cons y).trans (List.Perm.swap x y l)

theorem perm_sortByScoreDesc (l : List ScoredMediaUnit) :
    (sortByScoreDesc l).Perm l := by
  induction l with
  | nil => exact List.Perm.refl _
  | cons x l ih =>
    exact (perm_insertScored x (sortByScoreDesc l)).trans (ih.cons x)

theorem pairwise_insertScored (x : ScoredMediaUnit) (l : List ScoredMediaUnit)
    (h : l.Pairwise (fun a b => b.score ≤ a.score)) :
    (insertScored x l).Pairwise (fun a b => b.score ≤ a.score) := by
  induction l with
  | nil => simp [insertScored]
  | cons y l ih =>
    rcases List.pairwise_cons.mp h with ⟨hy, hl⟩
    by_cases hxy : y.score ≤ x.score
    · simp only [insertScored, if_pos hxy]
      refine List.pairwise_cons.mpr ⟨?_, h⟩
      intro b hb
      rcases List.mem_cons.mp hb with rfl | hb
      · exact hxy
      · exact le_trans (hy b hb) hxy
    · simp only [insertScored, if_neg hxy]
      refine List.pairwise_cons.mpr ⟨?_, ih hl⟩
      intro b hb
      have hb2 : b ∈ x :: l := (perm_insertScored x l).mem_iff.mp hb
      rcases List.mem_cons.mp hb2 with rfl | hb2
      · exact le_of_lt (lt_of_not_le hxy)
      · exact hy b hb2

theorem pairwise_sortByScoreDesc (l : List ScoredMediaUnit) :
    (sortByScoreDesc l).Pairwise (fun a b => b.score ≤ a.score) := by
  induction l with
  | nil => simp [sortByScoreDesc]
  | cons x l ih => exact pairwise_insertScored x (sortByScoreDesc l) ih

theorem filter_insertScored_of_eq (x : ScoredMediaUnit) (l : List ScoredMediaUnit)
    (s : ℚ) (hx : x.score = s) :
    (insertScored x l).filter (fun u => u.score = s) =
      x :: l.filter (fun u => u.score = s) := by
  induction l with
  | nil => simp [insertScored, hx]
  | cons y l ih =>
    by_cases hxy : y.score ≤ x.score
    · simp only [insertScored, if_pos hxy]
      simp [List.filter_cons, hx]
    · have hy : ¬ y.score = s := by
        intro hys
        exact hxy (hx ▸ hys ▸ le_refl _)
      simp only [insertScored, if_neg hxy]
      simp [List.filter_cons, hy, ih]

theorem filter_insertScored_of_ne (x : ScoredMediaUnit) (l : List ScoredMediaUnit)
    (s : ℚ) (hx : ¬ x.score = s) :
    (insertScored x l).filter (fun u => u.score = s) =
      l.filter (fun u => u.score = s) := by
  induction l with
  | nil => simp [insertScored, hx]
  | cons y l ih =>
    by_cases hxy : y.score ≤ x.score
    · simp [insertScored, if_pos hxy, hx]
    · simp only [insertScored, if_neg hxy]
      by_cases hy : y.score = s
      · simp [List.filter_cons, hy, ih]
      · simp [List.filter_cons, hy, ih]

theorem filter_sortByScoreDesc (l : List ScoredMediaUnit) (s : ℚ) :
    (sortByScoreDesc l).filter (fun u => u.score = s) =
      l.filter (fun u => u.score = s) := by
  induction l with
  | nil => rfl
  | cons x l ih =>
    by_cases hx : x.score = s
    · rw [sortByScoreDesc, filter_insertScored_of_eq x _ s hx, ih]
      simp [List.filter_cons, hx]
    · rw [sortByScoreDesc, filter_insertScored_of_ne x _ s hx, ih]
      simp [List.filter_cons, hx]

/-- **C5.** `scoreMediaItems` returns its output sorted by descending score,
and among units with exactly equal scores the order of the (annotated) input
list is preserved: filtering the output to any fixed score value yields the
same list as filtering the annotated input, whose order is the input order. -/
theorem scoreMediaItems_sorted_and_stable (log10 : ℚ → ℚ) (items : List MediaUnit)
    (options : ScoreOptions) :
    (scoreMediaItems log10 items options).Pairwise (fun a b => b.score ≤ a.score)
    ∧ ∀ s : ℚ,
      (scoreMediaItems log10 items options).filter (fun u => u.score = s) =
        (annotatedUnits log10 items options).filter (fun u => u.score = s) := by
  constructor
  · exact pairwise_sortByScoreDesc _
  · intro s
    exact filter_sortByScoreDesc _ s

/-- **C10.** `scoreMediaItems` only annotates: stripping the added `metrics`
and `score` fields from its output yields a permutation of the input units —
every output element agrees with its input unit on every `MediaUnit` field,
and no input unit is dropped or duplicated. -/
theorem scoreMediaItems_preserves_units (log10 : ℚ → ℚ) (items : List MediaUnit)
    (options : ScoreOptions) :
    ((scoreMediaItems log10 items options).map (fun u => u.toMediaUnit)).Perm items := by
  have h1 : ((scoreMediaItems log10 items options).map (fun u => u.toMediaUnit)).Perm
      ((annotatedUnits log10 items options).map (fun u => u.toMediaUnit)) :=
    (perm_sortByScoreDesc _).map _
  have h2 : (annotatedUnits log10 items options).map (fun u => u.toMediaUnit) = items := by
    rw [annotatedUnits, List.map_map]
    exact List.map_id items
  rw [h2] at h1
  exact h1

theorem mem_scoreMediaItems (log10 : ℚ → ℚ) (items : List MediaUnit)
    (options : ScoreOptions) (scored : ScoredMediaUnit)
    (h : scored ∈ scoreMediaItems log10 items options) :
    ∃ item ∈ items,
      scored = annotateUnit log10 (options.weights.getD defaultWeights) options.now
        ((items.map (fun item => item.sizeBytes)).foldl max 1)
        (options.targetPlaysPerYear.getD (5 / 10))
        (options.saturationAgeYears.getD 5)
        (options.targetPlaysPerGb.getD (2 / 100)) item := by
  have h2 : scored ∈ annotatedUnits log10 items options :=
    (perm_sortByScoreDesc _).mem_iff.mp h
  rcases List.mem_map.mp h2 with ⟨item, hmem, heq⟩
  exact ⟨item, hmem, heq.symm⟩

theorem computeWatchScarcity_formula (ppY na tY ppGb tGb cov : ℚ) :
    computeWatchScarcity ppY na tY ppGb tGb cov =
      clamp (((5 / 10) * clamp (1 - ppY / tY) 0 1 +
          (3 / 10) * clamp (1 - ppGb / tGb) 0 1 +
          (2 / 10) * clamp (1 - cov) 0 1) * (5 / 10 + (5 / 10) * na)) 0 1 := by
  simp only [computeWatchScarcity]
  congr 1
  ring

/-- **C1.** For every unit scored by `scoreMediaItems` (with non-negative
sizes, per the data-model invariant), the computed `watchScarcityScore`
equals
`clamp((0.5·clamp(1 − playsPerYear/targetPlaysPerYear, 0, 1)
 + 0.3·clamp(1 − playsPerGb/targetPlaysPerGb, 0, 1)
 + 0.2·clamp(1 − coverageRatio, 0, 1)) · (0.5 + 0.5·normalizedAge), 0, 1)`,
where `playsPerYear = totalPlayCount / max(ageYears, 0.25)`,
`playsPerGb` is `totalPlayCount` divided by the size in gigabytes
(0 when the size is 0), and
`coverageRatio = itemsWithPlays / itemCount` (0 when `itemCount` is 0). -/
theorem scoreMediaItems_watchScarcityScore_formula (log10 : ℚ → ℚ)
    (items : List MediaUnit) (options : ScoreOptions)
    (hsize : ∀ u ∈ items, 0 ≤ u.sizeBytes) (scored : ScoredMediaUnit)
    (hmem : scored ∈ scoreMediaItems log10 items options) :
    scored.metrics.watchScarcityScore =
      clamp (((5 / 10) *
            clamp (1 - scored.metrics.playsPerYear /
              options.targetPlaysPerYear.getD (5 / 10)) 0 1 +
          (3 / 10) *
            clamp (1 - scored.metrics.playsPerGb /
              options.targetPlaysPerGb.getD (2 / 100)) 0 1 +
          (2 / 10) * clamp (1 - scored.metrics.coverageRatio) 0 1) *
        (5 / 10 + (5 / 10) * scored.metrics.ageScore)) 0 1
    ∧ scored.metrics.playsPerYear =
        scored.totalPlayCount / max scored.metrics.ageYears (1 / 4)
    ∧ scored.metrics.playsPerGb =
        (if scored.sizeBytes = 0 then 0
         else scored.totalPlayCount / (scored.sizeBytes / 1024 ^ 3))
    ∧ scored.metrics.coverageRatio =
        (if scored.itemCount = 0 then 0
         else scored.itemsWithPlays / scored.itemCount) := by
  rcases mem_scoreMediaItems log10 items options scored hmem with ⟨item, hitem, rfl⟩
  have hs : 0 ≤ item.sizeBytes := hsize item hitem
  refine ⟨?_, rfl, ?_, rfl⟩
  · exact computeWatchScarcity_formula _ _ _ _ _ _
  · show computePlaysPerGb item.totalPlayCount item.sizeBytes =
      if item.sizeBytes = 0 then 0
      else item.totalPlayCount / (item.sizeBytes / 1024 ^ 3)
    rcases eq_or_lt_of_le hs with hz | hpos
    · rw [computePlaysPerGb, if_pos hz.symm]
      simp [← hz]
    · have hgb : (0 : ℚ) < item.sizeBytes / 1024 ^ 3 := by positivity
      rw [computePlaysPerGb, if_neg (ne_of_gt hpos)]
      simp only [if_pos hpos, if_neg (not_le.mpr hgb)]

/-- Witness for C1: a concrete one-unit batch. -/
theorem scoreMediaItems_watchScarcityScore_formula_witness :
    (∀ u ∈ [wUnit], (0 : ℚ) ≤ u.sizeBytes) ∧
      wScored ∈ scoreMediaItems (fun _ => 0) [wUnit] wOptions ∧
      wScored.metrics.watchScarcityScore =
        clamp (((5 / 10) *
              clamp (1 - wScored.metrics.playsPerYear /
                wOptions.targetPlaysPerYear.getD (5 / 10)) 0 1 +
            (3 / 10) *
              clamp (1 - wScored.metrics.playsPerGb /
                wOptions.targetPlaysPerGb.getD (2 / 100)) 0 1 +
            (2 / 10) * clamp (1 - wScored.metrics.coverageRatio) 0 1) *
          (5 / 10 + (5 / 10) * wScored.metrics.ageScore)) 0 1 := by
  have hsize : ∀ u ∈ [wUnit], (0 : ℚ) ≤ u.sizeBytes := by
    intro u hu
    rw [List.mem_singleton.mp hu]
    norm_num [wUnit]
  have hmem : wScored ∈ scoreMediaItems (fun _ => 0) [wUnit] wOptions := by
    rw [show scoreMediaItems (fun _ => 0) [wUnit] wOptions = [wScored] from rfl]
    exact List.mem_singleton_self _
  exact ⟨hsize, hmem,
    (scoreMediaItems_watchScarcityScore_formula (fun _ => 0) [wUnit] wOptions
      hsize wScored hmem).1⟩

/-! ### Aggregator: the per-key fold characterization -/

theorem mergeInto_id (b : AggregatedUnitBuilder) (s : MediaSource) (idy : UnitIdentity) :
    (mergeInto b s idy).id = b.id :=
  rfl

theorem findB_nil (k : String) : findB [] k = none :=
  rfl

theorem findB_cons (b : AggregatedUnitBuilder) (m : List AggregatedUnitBuilder)
    (k : String) :
    findB (b :: m) k = if b.id = k then some b else findB m k := by
  rw [findB, findB, List.find?_cons]
  by_cases h : b.id = k
  · simp [h]
  · simp [h]

theorem findB_updateFirst (kt k : String)
    (f : AggregatedUnitBuilder → AggregatedUnitBuilder)
    (m : List AggregatedUnitBuilder) (hf : ∀ b, (f b).id = b.id) :
    findB (updateFirst kt f m) k =
      if kt = k then (findB m k).map f else findB m k := by
  induction m with
  | nil =>
    by_cases h : kt = k <;> simp [updateFirst, findB_nil, h]
  | cons b m ih =>
    by_cases hb : b.id = kt
    · rw [updateFirst, if_pos hb, findB_cons, findB_cons, hf b]
      by_cases hk : kt = k
      · rw [if_pos (hb.trans hk), if_pos (hb.trans hk), if_pos hk, Option.map_some']
      · rw [if_neg (fun h => hk (hb ▸ h)), if_neg (fun h => hk (hb ▸ h)), if_neg hk]
    · rw [updateFirst, if_neg hb, findB_cons, findB_cons]
      by_cases hbk : b.id = k
      · have hk : ¬ kt = k := fun h => hb (hbk.trans h.symm)
        rw [if_pos hbk, if_pos hbk, if_neg hk]
      · rw [if_neg hbk, if_neg hbk, ih]

theorem findB_append_one (m : List AggregatedUnitBuilder) (b : AggregatedUnitBuilder)
    (k : String) :
    findB (m ++ [b]) k = (findB m k).or (if b.id = k then some b else none) := by
  induction m with
  | nil =>
    rw [List.nil_append, findB_cons, findB_nil, Option.none_or]
  | cons c m ih =>
    rw [List.cons_append, findB_cons, findB_cons]
    by_cases hc : c.id = k
    · rw [if_pos hc, if_pos hc]
      rfl
    · rw [if_neg hc, if_neg hc, ih]

theorem buildGroup_append (s t : MediaSource) (rest : List MediaSource) :
    buildGroup s (rest ++ [t]) = mergeStep (buildGroup s rest) t := by
  rw [buildGroup, buildGroup, ← List.cons_append, List.foldl_append, List.foldl_cons,
    List.foldl_nil]

theorem constituentsOf_append_one (l : List MediaSource) (t : MediaSource) (k : String) :
    constituentsOf (l ++ [t]) k =
      constituentsOf l k ++ (if unitKey t = k then [t] else []) := by
  rw [constituentsOf, constituentsOf, List.filter_append]
  congr 1
  by_cases h : unitKey t = k
  · simp [h]
  · simp [h]

theorem aggStep_found (m : List AggregatedUnitBuilder) (t : MediaSource)
    (b : AggregatedUnitBuilder) (hf : findB m (unitKey t) = some b) :
    aggStep m t =
      updateFirst (unitKey t) (fun x => mergeInto x t (determineUnitIdentity t)) m := by
  simp only [aggStep]
  rw [show (determineUnitIdentity t).key = unitKey t from rfl, hf]

theorem aggStep_fresh (m : List AggregatedUnitBuilder) (t : MediaSource)
    (hf : findB m (unitKey t) = none) :
    aggStep m t =
      m ++ [mergeInto (freshBuilder t (determineUnitIdentity t)) t
        (determineUnitIdentity t)] := by
  simp only [aggStep]
  rw [show (determineUnitIdentity t).key = unitKey t from rfl, hf]

/-- The key fact: after folding all sources, the builder found under key `k`
is exactly the fold of the constituents of `k`, in arrival order. -/
theorem findB_aggregate (l : List MediaSource) (k : String) :
    findB (l.foldl aggStep []) k = groupBuildFor l k := by
  induction l using List.reverseRecOn with
  | nil => rfl
  | append_singleton l t ih =>
    rw [List.foldl_append, List.foldl_cons, List.foldl_nil]
    by_cases hkt : unitKey t = k
    · subst hkt
      cases hf : findB (l.foldl aggStep []) (unitKey t) with
      | none =>
        have hfil : constituentsOf l (unitKey t) = [] := by
          have hg := hf
          rw [ih, groupBuildFor] at hg
          rcases hc : constituentsOf l (unitKey t) with _ | ⟨s, rest⟩
          · rfl
          · rw [hc] at hg
            exact Option.noConfusion hg
        have hcon : groupBuildFor (l ++ [t]) (unitKey t) = some (buildGroup t []) := by
          rw [groupBuildFor, constituentsOf_append_one, if_pos rfl, hfil,
            List.nil_append]
        rw [aggStep_fresh _ _ hf, findB_append_one, hf, Option.none_or, hcon]
        rw [show (mergeInto (freshBuilder t (determineUnitIdentity t)) t
          (determineUnitIdentity t)).id = unitKey t from rfl, if_pos rfl]
        rfl
      | some b =>
        rcases hc : constituentsOf l (unitKey t) with _ | ⟨s, rest⟩
        · have hg := hf
          rw [ih, groupBuildFor, hc] at hg
          exact Option.noConfusion hg
        · have hg := hf
          rw [ih, groupBuildFor, hc] at hg
          have hb : buildGroup s rest = b := Option.some.inj hg
          have hcon : groupBuildFor (l ++ [t]) (unitKey t) =
              some (buildGroup s (rest ++ [t])) := by
            rw [groupBuildFor, constituentsOf_append_one, if_pos rfl, hc,
              List.cons_append]
          rw [aggStep_found _ _ _ hf,
            findB_updateFirst (unitKey t) (unitKey t)
              (fun x => mergeInto x t (determineUnitIdentity t)) _ (fun _ => rfl),
            if_pos rfl, hf, Option.map_some', hcon, ← hb, buildGroup_append]
          rfl
    · have hstep : findB (aggStep (l.foldl aggStep []) t) k =
          findB (l.foldl aggStep []) k := by
        cases hf : findB (l.foldl aggStep []) (unitKey t) with
        | none =>
          rw [aggStep_fresh _ _ hf, findB_append_one,
            show (mergeInto (freshBuilder t (determineUnitIdentity t)) t
              (determineUnitIdentity t)).id = unitKey t from rfl,
            if_neg hkt, Option.or_none]
        | some b =>
          rw [aggStep_found _ _ _ hf,
            findB_updateFirst (unitKey t) k
              (fun x => mergeInto x t (determineUnitIdentity t)) _ (fun _ => rfl),
            if_neg hkt]
      have hcon : groupBuildFor (l ++ [t]) k = groupBuildFor l k := by
        rw [groupBuildFor, groupBuildFor, constituentsOf_append_one, if_neg hkt,
          List.append_nil]
      rw [hstep, hcon, ih]

theorem map_id_updateFirst (kt : String)
    (f : AggregatedUnitBuilder → AggregatedUnitBuilder)
    (m : List AggregatedUnitBuilder) (hf : ∀ b, (f b).id = b.id) :
    (updateFirst kt f m).map (fun b => b.id) = m.map (fun b => b.id) := by
  induction m with
  | nil => rfl
  | cons b m ih =>
    by_cases hb : b.id = kt
    · rw [updateFirst, if_pos hb, List.map_cons, List.map_cons, hf b]
    · rw [updateFirst, if_neg hb, List.map_cons, List.map_cons, ih]

theorem isSome_findB_iff (m : List AggregatedUnitBuilder) (k : String) :
    (findB m k).isSome ↔ k ∈ m.map (fun b => b.id) := by
  induction m with
  | nil => simp [findB_nil]
  | cons b m ih =>
    rw [findB_cons, List.map_cons]
    by_cases hb : b.id = k
    · simp [hb]
    · simp only [List.mem_cons]
      rw [if_neg hb, ih]
      constructor
      · exact fun h => Or.inr h
      · rintro (h | h)
        · exact absurd h.symm hb
        · exact h

theorem nodupIds_foldl_aggStep (l : List MediaSource)
    (m : List AggregatedUnitBuilder)
    (h : (m.map (fun b => b.id)).Nodup) :
    ((l.foldl aggStep m).map (fun b => b.id)).Nodup := by
  induction l generalizing m with
  | nil => exact h
  | cons s l ih =>
    rw [List.foldl_cons]
    refine ih (aggStep m s) ?_
    cases hf : findB m (unitKey s) with
    | some b =>
      rw [aggStep_found _ _ _ hf,
        map_id_updateFirst (unitKey s) (fun x => mergeInto x s (determineUnitIdentity s))
          m (fun _ => rfl)]
      exact h
    | none =>
      rw [aggStep_fresh _ _ hf, List.map_append, List.map_singleton]
      have hnotin : unitKey s ∉ m.map (fun b => b.id) := by
        intro hmem
        have := (isSome_findB_iff m (unitKey s)).mpr hmem
        rw [hf] at this
        simp at this
      have hid : (mergeInto (freshBuilder s (determineUnitIdentity s)) s
          (determineUnitIdentity s)).id = unitKey s := rfl
      rw [hid]
      exact List.Nodup.append h (List.nodup_singleton _)
        (by simpa using hnotin)

theorem findB_of_mem (m : List AggregatedUnitBuilder) (b : AggregatedUnitBuilder)
    (hnd : (m.map (fun b => b.id)).Nodup) (hb : b ∈ m) :
    findB m b.id = some b := by
  induction m with
  | nil => exact absurd hb (List.not_mem_nil b)
  | cons c m ih =>
    rw [List.map_cons, List.nodup_cons] at hnd
    rcases List.mem_cons.mp hb with rfl | hb2
    · rw [findB_cons, if_pos rfl]
    · rw [findB_cons]
      have hne : ¬ c.id = b.id := by
        intro he
        exact hnd.1 (he ▸ (List.mem_map.mpr ⟨b, hb2, rfl⟩))
      rw [if_neg hne]
      exact ih hnd.2 hb2

theorem finalizeB_id (b : AggregatedUnitBuilder) : (finalizeB b).id = b.id :=
  rfl

theorem foldl_mergeStep_id (b : AggregatedUnitBuilder) (l : List MediaSource) :
    (l.foldl mergeStep b).id = b.id := by
  induction l generalizing b with
  | nil => rfl
  | cons u l ihl =>
    rw [List.foldl_cons]
    exact ihl (mergeStep b u)

theorem buildGroup_id (s : MediaSource) (rest : List MediaSource) :
    (buildGroup s rest).id = unitKey s := by
  rw [buildGroup, List.foldl_cons, foldl_mergeStep_id]
  rfl

/-- Membership characterization: the units of `aggregateMediaUnits sources`
are exactly the finalized per-key group folds. -/
theorem mem_aggregateMediaUnits (sources : List MediaSource) (u : MediaUnit) :
    u ∈ aggregateMediaUnits sources ↔
      ∃ b, groupBuildFor sources u.id = some b ∧ u = finalizeB b := by
  constructor
  · intro hu
    rcases List.mem_map.mp hu with ⟨b, hbm, rfl⟩
    have hnd := nodupIds_foldl_aggStep sources [] List.nodup_nil
    have hfind := findB_of_mem _ b hnd hbm
    refine ⟨b, ?_, rfl⟩
    rw [finalizeB_id, ← findB_aggregate, hfind]
  · rintro ⟨b, hb, rfl⟩
    rw [← findB_aggregate] at hb
    exact List.mem_map.mpr ⟨b, List.mem_of_find?_eq_some hb, rfl⟩

/-! ### Aggregator: per-group field values -/

theorem mergeStep_addedAt (b : AggregatedUnitBuilder) (s : MediaSource) :
    (mergeStep b s).addedAt = min b.addedAt s.addedAt := by
  show (if s.addedAt < b.addedAt then s.addedAt else b.addedAt) = min b.addedAt s.addedAt
  by_cases h : s.addedAt < b.addedAt
  · rw [if_pos h, min_eq_right h.le]
  · rw [if_neg h, min_eq_left (not_lt.mp h)]

theorem mergeStep_lastPlayedAt (b : AggregatedUnitBuilder) (s : MediaSource) :
    (mergeStep b s).lastPlayedAt =
      match s.lastPlayedAt with
      | none => b.lastPlayedAt
      | some t => omax b.lastPlayedAt t := by
  show (match s.lastPlayedAt, b.lastPlayedAt with
      | some t, none => some t
      | some t, some v => if t > v then some t else some v
      | none, cur => cur) = _
  cases hs : s.lastPlayedAt with
  | none => cases b.lastPlayedAt <;> rfl
  | some t =>
    cases hb : b.lastPlayedAt with
    | none => rfl
    | some v =>
      show (if t > v then some t else some v) = some (max v t)
      by_cases h : t > v
      · rw [if_pos h, max_eq_right h.le]
      · rw [if_neg h, max_eq_left (not_lt.mp h)]

theorem foldl_mergeStep_sizeBytes (l : List MediaSource) (b : AggregatedUnitBuilder) :
    (l.foldl mergeStep b).sizeBytes = b.sizeBytes + (l.map (fun s => s.sizeBytes)).sum := by
  induction l generalizing b with
  | nil => simp
  | cons s l ih =>
    rw [List.foldl_cons, ih, List.map_cons, List.sum_cons]
    show (b.sizeBytes + s.sizeBytes) + _ = _
    ring

theorem foldl_mergeStep_totalPlayCount (l : List MediaSource) (b : AggregatedUnitBuilder) :
    (l.foldl mergeStep b).totalPlayCount =
      b.totalPlayCount + (l.map (fun s => s.playCount)).sum := by
  induction l generalizing b with
  | nil => simp
  | cons s l ih =>
    rw [List.foldl_cons, ih, List.map_cons, List.sum_cons]
    show (b.totalPlayCount + s.playCount) + _ = _
    ring

theorem foldl_mergeStep_itemCount (l : List MediaSource) (b : AggregatedUnitBuilder) :
    (l.foldl mergeStep b).itemCount = b.itemCount + (l.length : ℚ) := by
  induction l generalizing b with
  | nil => simp
  | cons s l ih =>
    rw [List.foldl_cons, ih, List.length_cons]
    show (b.itemCount + 1) + _ = _
    push_cast
    ring

theorem foldl_mergeStep_itemsWithPlays (l : List MediaSource) (b : AggregatedUnitBuilder) :
    (l.foldl mergeStep b).itemsWithPlays =
      b.itemsWithPlays + ((l.filter (fun s => s.playCount > 0)).length : ℚ) := by
  induction l generalizing b with
  | nil => simp
  | cons s l ih =>
    rw [List.foldl_cons, ih, List.filter_cons]
    by_cases h : s.playCount > 0
    · rw [if_pos (by simpa using h), List.length_cons]
      show (if s.playCount > 0 then b.itemsWithPlays + 1 else b.itemsWithPlays) + _ = _
      rw [if_pos h]
      push_cast
      ring
    · rw [if_neg (by simpa using h)]
      show (if s.playCount > 0 then b.itemsWithPlays + 1 else b.itemsWithPlays) + _ = _
      rw [if_neg h]

theorem foldl_mergeStep_sourceItems (l : List MediaSource) (b : AggregatedUnitBuilder) :
    (l.foldl mergeStep b).sourceItems = b.sourceItems ++ l := by
  induction l generalizing b with
  | nil => simp
  | cons s l ih =>
    rw [List.foldl_cons, ih]
    show (b.sourceItems ++ [s]) ++ l = _
    rw [List.append_assoc, List.singleton_append]

theorem foldl_mergeStep_addedAt (l : List MediaSource) (b : AggregatedUnitBuilder) :
    (l.foldl mergeStep b).addedAt = (l.map (fun s => s.addedAt)).foldl min b.addedAt := by
  induction l generalizing b with
  | nil => rfl
  | cons s l ih =>
    rw [List.foldl_cons, ih, mergeStep_addedAt, List.map_cons, List.foldl_cons]

theorem foldl_mergeStep_maxItemPlayCount (l : List MediaSource) (b : AggregatedUnitBuilder) :
    (l.foldl mergeStep b).maxItemPlayCount =
      (l.map (fun s => s.playCount)).foldl max b.maxItemPlayCount := by
  induction l generalizing b with
  | nil => rfl
  | cons s l ih =>
    rw [List.foldl_cons, ih, List.map_cons, List.foldl_cons]
    rfl

theorem foldl_mergeStep_lastPlayedAt (l : List MediaSource) (b : AggregatedUnitBuilder) :
    (l.foldl mergeStep b).lastPlayedAt =
      (l.filterMap (fun s => s.lastPlayedAt)).foldl omax b.lastPlayedAt := by
  induction l generalizing b with
  | nil => rfl
  | cons s l ih =>
    rw [List.foldl_cons, ih, mergeStep_lastPlayedAt]
    cases hs : s.lastPlayedAt with
    | none => simp only [List.filterMap_cons, hs]
    | some t => simp only [List.filterMap_cons, hs, List.foldl_cons]

theorem foldl_mergeStep_paths (l : List MediaSource) (b : AggregatedUnitBuilder)
    (p : String) :
    p ∈ (l.foldl mergeStep b).paths ↔ p ∈ b.paths ∨ p ∈ l.map (fun s => s.path) := by
  induction l generalizing b with
  | nil => simp
  | cons s l ih =>
    rw [List.foldl_cons, ih, List.map_cons]
    have hstep : p ∈ (mergeStep b s).paths ↔ p ∈ b.paths ∨ p = s.path := by
      show p ∈ (if s.path ∈ b.paths then b.paths else b.paths ++ [s.path]) ↔ _
      by_cases h : s.path ∈ b.paths
      · rw [if_pos h]
        constructor
        · exact fun hp => Or.inl hp
        · rintro (hp | rfl)
          · exact hp
          · exact h
      · rw [if_neg h]
        simp
    rw [hstep, List.mem_cons]
    tauto

theorem foldl_mergeStep_kind (l : List MediaSource) (b : AggregatedUnitBuilder) :
    (l.foldl mergeStep b).kind = b.kind := by
  induction l generalizing b with
  | nil => rfl
  | cons s l ih =>
    rw [List.foldl_cons]
    exact ih (mergeStep b s)

theorem foldl_min_mem (a : ℚ) (l : List ℚ) : l.foldl min a ∈ a :: l := by
  induction l generalizing a with
  | nil => simp
  | cons x l ih =>
    rw [List.foldl_cons]
    rcases List.mem_cons.mp (ih (min a x)) with h | h
    · rw [h]
      rcases le_total a x with hax | hax
      · rw [min_eq_left hax]
        exact List.mem_cons_self _ _
      · rw [min_eq_right hax]
        exact List.mem_cons.mpr (Or.inr (List.mem_cons_self _ _))
    · exact List.mem_cons.mpr (Or.inr (List.mem_cons.mpr (Or.inr h)))

theorem foldl_min_le (a : ℚ) (l : List ℚ) : ∀ x ∈ a :: l, l.foldl min a ≤ x := by
  induction l generalizing a with
  | nil =>
    intro x hx
    rw [List.mem_singleton.mp hx]
    rfl
  | cons y l ih =>
    intro x hx
    rw [List.foldl_cons]
    rcases List.mem_cons.mp hx with rfl | hx2
    · exact le_trans (ih (min x y) (min x y) (List.mem_cons_self _ _)) (min_le_left _ _)
    · rcases List.mem_cons.mp hx2 with rfl | hx3
      · exact le_trans (ih (min a x) (min a x) (List.mem_cons_self _ _)) (min_le_right _ _)
      · exact ih (min a y) x (List.mem_cons.mpr (Or.inr hx3))

theorem foldl_max_mem (a : ℚ) (l : List ℚ) : l.foldl max a ∈ a :: l := by
  induction l generalizing a with
  | nil => simp
  | cons x l ih =>
    rw [List.foldl_cons]
    rcases List.mem_cons.mp (ih (max a x)) with h | h
    · rw [h]
      rcases le_total a x with hax | hax
      · rw [max_eq_right hax]
        exact List.mem_cons.mpr (Or.inr (List.mem_cons_self _ _))
      · rw [max_eq_left hax]
        exact List.mem_cons_self _ _
    · exact List.mem_cons.mpr (Or.inr (List.mem_cons.mpr (Or.inr h)))

theorem le_foldl_max (a : ℚ) (l : List ℚ) : ∀ x ∈ a :: l, x ≤ l.foldl max a := by
  induction l generalizing a with
  | nil =>
    intro x hx
    rw [List.mem_singleton.mp hx]
    rfl
  | cons y l ih =>
    intro x hx
    rw [List.foldl_cons]
    rcases List.mem_cons.mp hx with rfl | hx2
    · exact le_trans (le_max_left x y) (ih (max x y) (max x y) (List.mem_cons_self _ _))
    · rcases List.mem_cons.mp hx2 with rfl | hx3
      · exact le_trans (le_max_right a x) (ih (max a x) (max a x) (List.mem_cons_self _ _))
      · exact ih (max a y) x (List.mem_cons.mpr (Or.inr hx3))

theorem minimum_cons_eq_foldl (a : ℚ) (l : List ℚ) :
    (a :: l).minimum = ((l.foldl min a : ℚ) : WithBot ℚ) :=
  List.minimum_eq_coe_iff.mpr ⟨foldl_min_mem a l, foldl_min_le a l⟩

theorem maximum_cons_eq_foldl (a : ℚ) (l : List ℚ) :
    (a :: l).maximum = ((l.foldl max a : ℚ) : WithBot ℚ) :=
  List.maximum_eq_coe_iff.mpr ⟨foldl_max_mem a l, le_foldl_max a l⟩

theorem foldl_omax_some (a : ℚ) (ts : List ℚ) :
    ts.foldl omax (some a) = some (ts.foldl max a) := by
  induction ts generalizing a with
  | nil => rfl
  | cons t ts ih =>
    rw [List.foldl_cons, List.foldl_cons]
    exact ih (max a t)

theorem toWithBot_foldl_omax_none (ts : List ℚ) :
    toWithBot (ts.foldl omax none) = ts.maximum := by
  cases ts with
  | nil => rfl
  | cons t ts =>
    rw [List.foldl_cons, show omax none t = some t from rfl, foldl_omax_some,
      maximum_cons_eq_foldl]
    rfl

theorem buildGroup_sizeBytes (s : MediaSource) (rest : List MediaSource) :
    (buildGroup s rest).sizeBytes = ((s :: rest).map (fun x => x.sizeBytes)).sum := by
  rw [buildGroup, foldl_mergeStep_sizeBytes]
  show 0 + _ = _
  rw [zero_add]

theorem buildGroup_totalPlayCount (s : MediaSource) (rest : List MediaSource) :
    (buildGroup s rest).totalPlayCount =
      ((s :: rest).map (fun x => x.playCount)).sum := by
  rw [buildGroup, foldl_mergeStep_totalPlayCount]
  show 0 + _ = _
  rw [zero_add]

theorem buildGroup_itemCount (s : MediaSource) (rest : List MediaSource) :
    (buildGroup s rest).itemCount = ((s :: rest).length : ℚ) := by
  rw [buildGroup, foldl_mergeStep_itemCount]
  show 0 + _ = _
  rw [zero_add]

theorem buildGroup_itemsWithPlays (s : MediaSource) (rest : List MediaSource) :
    (buildGroup s rest).itemsWithPlays =
      (((s :: rest).filter (fun x => x.playCount > 0)).length : ℚ) := by
  rw [buildGroup, foldl_mergeStep_itemsWithPlays]
  show 0 + _ = _
  rw [zero_add]

theorem buildGroup_sourceItems (s : MediaSource) (rest : List MediaSource) :
    (buildGroup s rest).sourceItems = s :: rest := by
  rw [buildGroup, foldl_mergeStep_sourceItems]
  show [] ++ _ = _
  rw [List.nil_append]

theorem buildGroup_addedAt (s : MediaSource) (rest : List MediaSource) :
    ((s :: rest).map (fun x => x.addedAt)).minimum =
      ((buildGroup s rest).addedAt : WithBot ℚ) := by
  rw [buildGroup, foldl_mergeStep_addedAt, List.map_cons, List.foldl_cons,
    show (freshBuilder s (determineUnitIdentity s)).addedAt = s.addedAt from rfl,
    min_self, minimum_cons_eq_foldl]

theorem buildGroup_maxItemPlayCount (s : MediaSource) (rest : List MediaSource) :
    ((0 : ℚ) :: (s :: rest).map (fun x => x.playCount)).maximum =
      ((buildGroup s rest).maxItemPlayCount : WithBot ℚ) := by
  rw [buildGroup, foldl_mergeStep_maxItemPlayCount,
    show (freshBuilder s (determineUnitIdentity s)).maxItemPlayCount = 0 from rfl,
    maximum_cons_eq_foldl]

theorem buildGroup_lastPlayedAt (s : MediaSource) (rest : List MediaSource) :
    toWithBot (buildGroup s rest).lastPlayedAt =
      ((s :: rest).filterMap (fun x => x.lastPlayedAt)).maximum := by
  rw [buildGroup, foldl_mergeStep_lastPlayedAt,
    show (freshBuilder s (determineUnitIdentity s)).lastPlayedAt = s.lastPlayedAt from rfl]
  cases hs : s.lastPlayedAt with
  | none =>
    simp only [List.filterMap_cons, hs]
    exact toWithBot_foldl_omax_none _
  | some t =>
    simp only [List.filterMap_cons, hs, List.foldl_cons]
    rw [show omax (some t) t = some (max t t) from rfl, max_self, foldl_omax_some,
      maximum_cons_eq_foldl]
    rfl

theorem buildGroup_paths (s : MediaSource) (rest : List MediaSource) (p : String) :
    p ∈ (buildGroup s rest).paths ↔ p ∈ (s :: rest).map (fun x => x.path) := by
  rw [buildGroup, foldl_mergeStep_paths,
    show (freshBuilder s (determineUnitIdentity s)).paths = [] from rfl]
  simp

theorem buildGroup_kind (s : MediaSource) (rest : List MediaSource) :
    (buildGroup s rest).kind = (determineUnitIdentity s).kind := by
  rw [buildGroup, List.foldl_cons, foldl_mergeStep_kind]
  rfl

theorem toWithBot_inj (a b : Option ℚ) (h : toWithBot a = toWithBot b) : a = b := by
  cases a <;> cases b <;> simp_all [toWithBot]

theorem perm_minimum_eq (l₁ l₂ : List ℚ) (h : l₁.Perm l₂) :
    l₁.minimum = l₂.minimum := by
  cases l₁ with
  | nil =>
    rw [h.symm.eq_nil]
  | cons a t =>
    cases l₂ with
    | nil => exact absurd h.eq_nil (by simp)
    | cons b t₂ =>
      rw [minimum_cons_eq_foldl, minimum_cons_eq_foldl]
      have e : t.foldl min a = t₂.foldl min b := by
        refine le_antisymm ?_ ?_
        · exact foldl_min_le a t _ (h.mem_iff.mpr (foldl_min_mem b t₂))
        · exact foldl_min_le b t₂ _ (h.mem_iff.mp (foldl_min_mem a t))
      rw [e]

theorem perm_maximum_eq (l₁ l₂ : List ℚ) (h : l₁.Perm l₂) :
    l₁.maximum = l₂.maximum := by
  cases l₁ with
  | nil =>
    rw [h.symm.eq_nil]
  | cons a t =>
    cases l₂ with
    | nil => exact absurd h.eq_nil (by simp)
    | cons b t₂ =>
      rw [maximum_cons_eq_foldl, maximum_cons_eq_foldl]
      have e : t.foldl max a = t₂.foldl max b := by
        refine le_antisymm ?_ ?_
        · exact le_foldl_max b t₂ _ (h.mem_iff.mp (foldl_max_mem a t))
        · exact le_foldl_max a t _ (h.mem_iff.mpr (foldl_max_mem b t₂))
      rw [e]

/-! ### Size conservation -/

theorem sum_sizeBytes_updateFirst (k : String)
    (f : AggregatedUnitBuilder → AggregatedUnitBuilder)
    (m : List AggregatedUnitBuilder) (d : ℚ)
    (hf : ∀ x, (f x).sizeBytes = x.sizeBytes + d)
    (hfound : (findB m k).isSome) :
    ((updateFirst k f m).map (fun b => b.sizeBytes)).sum =
      (m.map (fun b => b.sizeBytes)).sum + d := by
  induction m with
  | nil => simp [findB_nil] at hfound
  | cons b m ih =>
    by_cases hb : b.id = k
    · rw [updateFirst, if_pos hb, List.map_cons, List.map_cons, List.sum_cons,
        List.sum_cons, hf b]
      ring
    · rw [findB_cons, if_neg hb] at hfound
      rw [updateFirst, if_neg hb, List.map_cons, List.map_cons, List.sum_cons,
        List.sum_cons, ih hfound]
      ring

theorem sum_sizeBytes_aggStep (m : List AggregatedUnitBuilder) (s : MediaSource) :
    ((aggStep m s).map (fun b => b.sizeBytes)).sum =
      (m.map (fun b => b.sizeBytes)).sum + s.sizeBytes := by
  cases hf : findB m (unitKey s) with
  | some b =>
    rw [aggStep_found _ _ _ hf]
    exact sum_sizeBytes_updateFirst (unitKey s) _ m s.sizeBytes (fun _ => rfl)
      (by rw [hf]; rfl)
  | none =>
    rw [aggStep_fresh _ _ hf, List.map_append, List.sum_append, List.map_singleton,
      List.sum_singleton,
      show (mergeInto (freshBuilder s (determineUnitIdentity s)) s
        (determineUnitIdentity s)).sizeBytes = 0 + s.sizeBytes from rfl, zero_add]

theorem sum_sizeBytes_foldl_aggStep (l : List MediaSource)
    (m : List AggregatedUnitBuilder) :
    (((l.foldl aggStep m)).map (fun b => b.sizeBytes)).sum =
      (m.map (fun b => b.sizeBytes)).sum + (l.map (fun s => s.sizeBytes)).sum := by
  induction l generalizing m with
  | nil => simp
  | cons s l ih =>
    rw [List.foldl_cons, ih, sum_sizeBytes_aggStep, List.map_cons, List.sum_cons]
    ring

/-- **C4.** Aggregation conserves bytes: the sum of `sizeBytes` over the
returned units equals the sum of `sizeBytes` over the input sources. -/
theorem aggregateMediaUnits_conserves_sizeBytes (sources : List MediaSource) :
    ((aggregateMediaUnits sources).map (fun u => u.sizeBytes)).sum =
      (sources.map (fun s => s.sizeBytes)).sum := by
  rw [aggregateMediaUnits, List.map_map]
  have h : ((sources.foldl aggStep []).map ((fun u => u.sizeBytes) ∘ finalizeB)).sum =
      ((sources.foldl aggStep []).map (fun b => b.sizeBytes)).sum := rfl
  rw [h, sum_sizeBytes_foldl_aggStep]
  simp

/-- **C8.** Every unit aggregated from a non-empty key-group has `addedAt`
equal to the minimum of its constituents' `addedAt`, and `lastPlayedAt` equal
to the maximum of their non-null `lastPlayedAt` (bottom, i.e. null, exactly
when every constituent is null). -/
theorem aggregateMediaUnits_addedAt_lastPlayedAt (sources : List MediaSource)
    (u : MediaUnit) (hu : u ∈ aggregateMediaUnits sources) :
    constituentsOf sources u.id ≠ [] ∧
    ((constituentsOf sources u.id).map (fun s => s.addedAt)).minimum =
      (u.addedAt : WithBot ℚ) ∧
    ((constituentsOf sources u.id).filterMap (fun s => s.lastPlayedAt)).maximum =
      toWithBot u.lastPlayedAt := by
  rcases (mem_aggregateMediaUnits sources u).mp hu with ⟨b, hb, rfl⟩
  rcases hc : constituentsOf sources (finalizeB b).id with _ | ⟨s, rest⟩
  · rw [groupBuildFor, hc] at hb
    exact absurd hb (by simp)
  · rw [groupBuildFor, hc] at hb
    have hbe : buildGroup s rest = b := Option.some.inj hb
    refine ⟨by simp, ?_, ?_⟩
    · rw [show (finalizeB b).addedAt = b.addedAt from rfl, ← hbe, buildGroup_addedAt]
    · rw [show (finalizeB b).lastPlayedAt = b.lastPlayedAt from rfl, ← hbe,
        buildGroup_lastPlayedAt]

theorem mem_aggregate_group (sources : List MediaSource) (u : MediaUnit)
    (hu : u ∈ aggregateMediaUnits sources) :
    ∃ s rest, constituentsOf sources u.id = s :: rest ∧
      u = finalizeB (buildGroup s rest) := by
  rcases (mem_aggregateMediaUnits sources u).mp hu with ⟨b, hb, rfl⟩
  rcases hc : constituentsOf sources (finalizeB b).id with _ | ⟨s, rest⟩
  · rw [groupBuildFor, hc] at hb
    exact absurd hb (by simp)
  · rw [groupBuildFor, hc] at hb
    have hbe : buildGroup s rest = b := Option.some.inj hb
    subst hbe
    exact ⟨s, rest, rfl, rfl⟩

theorem aggregate_ids (sources : List MediaSource) :
    (aggregateMediaUnits sources).map (fun u => u.id) =
      (sources.foldl aggStep []).map (fun b => b.id) := by
  rw [aggregateMediaUnits, List.map_map]
  rfl

theorem isSome_groupBuildFor_iff (sources : List MediaSource) (k : String) :
    (groupBuildFor sources k).isSome ↔ constituentsOf sources k ≠ [] := by
  rcases hc : constituentsOf sources k with _ | ⟨s, rest⟩
  · rw [groupBuildFor, hc]
    simp
  · rw [groupBuildFor, hc]
    simp

theorem mem_aggregate_ids_iff (sources : List MediaSource) (k : String) :
    k ∈ (aggregateMediaUnits sources).map (fun u => u.id) ↔
      constituentsOf sources k ≠ [] := by
  rw [aggregate_ids, ← isSome_findB_iff, findB_aggregate, isSome_groupBuildFor_iff]

/-- Witness for C8: the two-episode season `S1`. -/
theorem aggregateMediaUnits_addedAt_lastPlayedAt_witness :
    wAggUnitAB ∈ aggregateMediaUnits [wSrcA, wSrcB] ∧
    (constituentsOf [wSrcA, wSrcB] wAggUnitAB.id ≠ [] ∧
     ((constituentsOf [wSrcA, wSrcB] wAggUnitAB.id).map (fun s => s.addedAt)).minimum =
       (wAggUnitAB.addedAt : WithBot ℚ) ∧
     ((constituentsOf [wSrcA, wSrcB] wAggUnitAB.id).filterMap
        (fun s => s.lastPlayedAt)).maximum = toWithBot wAggUnitAB.lastPlayedAt) := by
  have hmem : wAggUnitAB ∈ aggregateMediaUnits [wSrcA, wSrcB] := by
    rw [show aggregateMediaUnits [wSrcA, wSrcB] = [wAggUnitAB] from rfl]
    exact List.mem_singleton_self _
  exact ⟨hmem, aggregateMediaUnits_addedAt_lastPlayedAt [wSrcA, wSrcB] wAggUnitAB hmem⟩

/-! ### Aggregation and input order (claim C3) -/

/-- **C3 counterexample.** Aggregation is not fully order-independent:
swapping two episode sources of one season changes the resulting unit (its
`title` comes from whichever source arrives first, and `sourceItems` keeps
arrival order), so the two permutations do not even yield the same set of
units. -/
theorem aggregateMediaUnits_order_dependent :
    ([wSrcA, wSrcB] : List MediaSource).Perm [wSrcB, wSrcA] ∧
    (aggregateMediaUnits [wSrcA, wSrcB]).length = 1 ∧
    (aggregateMediaUnits [wSrcB, wSrcA]).length = 1 ∧
    ¬ (aggregateMediaUnits [wSrcA, wSrcB]).Perm (aggregateMediaUnits [wSrcB, wSrcA]) := by
  refine ⟨List.Perm.swap wSrcB wSrcA [], rfl, rfl, ?_⟩
  intro hp
  have h1 : wAggUnitAB ∈ aggregateMediaUnits [wSrcA, wSrcB] := by
    rw [show aggregateMediaUnits [wSrcA, wSrcB] = [wAggUnitAB] from rfl]
    exact List.mem_singleton_self _
  have h2 := hp.mem_iff.mp h1
  rw [show aggregateMediaUnits [wSrcB, wSrcA] = [wAggUnitBA] from rfl] at h2
  have h3 : wAggUnitAB.title = wAggUnitBA.title :=
    congrArg (fun u => u.title) (List.mem_singleton.mp h2)
  rw [show wAggUnitAB.title = "A" from rfl, show wAggUnitBA.title = "B" from rfl] at h3
  exact absurd h3 (by decide)

/-- **C3 (amended).** Aggregation is order-independent in everything except
the identity-derived metadata and internal list order: a permutation of the
sources yields units for the same keys (a permutation of the `id` multiset),
and units with equal `id` agree on `sizeBytes`, `addedAt`, `lastPlayedAt`,
`totalPlayCount`, `maxItemPlayCount`, `itemsWithPlays`, `itemCount`, on the
set of `paths`, and up to permutation on `sourceItems`. -/
theorem aggregateMediaUnits_perm_invariant (l₁ l₂ : List MediaSource)
    (h : l₁.Perm l₂) :
    ((aggregateMediaUnits l₁).map (fun u => u.id)).Perm
      ((aggregateMediaUnits l₂).map (fun u => u.id)) ∧
    ∀ u₁ ∈ aggregateMediaUnits l₁, ∀ u₂ ∈ aggregateMediaUnits l₂, u₁.id = u₂.id →
      u₁.sizeBytes = u₂.sizeBytes ∧ u₁.addedAt = u₂.addedAt ∧
      u₁.lastPlayedAt = u₂.lastPlayedAt ∧ u₁.totalPlayCount = u₂.totalPlayCount ∧
      u₁.maxItemPlayCount = u₂.maxItemPlayCount ∧
      u₁.itemsWithPlays = u₂.itemsWithPlays ∧ u₁.itemCount = u₂.itemCount ∧
      (∀ p, p ∈ u₁.paths ↔ p ∈ u₂.paths) ∧ u₁.sourceItems.Perm u₂.sourceItems := by
  constructor
  · have hnd₁ : ((aggregateMediaUnits l₁).map (fun u => u.id)).Nodup := by
      rw [aggregate_ids]
      exact nodupIds_foldl_aggStep l₁ [] List.nodup_nil
    have hnd₂ : ((aggregateMediaUnits l₂).map (fun u => u.id)).Nodup := by
      rw [aggregate_ids]
      exact nodupIds_foldl_aggStep l₂ [] List.nodup_nil
    refine (List.perm_ext_iff_of_nodup hnd₁ hnd₂).mpr (fun k => ?_)
    rw [mem_aggregate_ids_iff, mem_aggregate_ids_iff]
    have hg : (constituentsOf l₁ k).Perm (constituentsOf l₂ k) :=
      h.filter (fun s => unitKey s = k)
    constructor
    · intro hne hnil
      rw [hnil] at hg
      exact hne hg.eq_nil
    · intro hne hnil
      rw [hnil] at hg
      exact hne hg.symm.eq_nil
  · intro u₁ hu₁ u₂ hu₂ hid
    rcases mem_aggregate_group l₁ u₁ hu₁ with ⟨s₁, r₁, hc₁, rfl⟩
    rcases mem_aggregate_group l₂ u₂ hu₂ with ⟨s₂, r₂, hc₂, rfl⟩
    have hg : ((s₁ :: r₁) : List MediaSource).Perm (s₂ :: r₂) := by
      rw [← hc₁, ← hc₂, constituentsOf, constituentsOf, ← hid]
      exact h.filter (fun s => unitKey s = (finalizeB (buildGroup s₁ r₁)).id)
    refine ⟨?_, ?_, ?_, ?_, ?_, ?_, ?_, ?_, ?_⟩
    · show (buildGroup s₁ r₁).sizeBytes = (buildGroup s₂ r₂).sizeBytes
      rw [buildGroup_sizeBytes, buildGroup_sizeBytes]
      exact (hg.map (fun x => x.sizeBytes)).sum_eq
    · show (buildGroup s₁ r₁).addedAt = (buildGroup s₂ r₂).addedAt
      have e := perm_minimum_eq _ _ (hg.map (fun x => x.addedAt))
      rw [buildGroup_addedAt, buildGroup_addedAt] at e
      exact WithBot.coe_inj.mp e
    · show (buildGroup s₁ r₁).lastPlayedAt = (buildGroup s₂ r₂).lastPlayedAt
      have e := perm_maximum_eq _ _ (hg.filterMap (fun x => x.lastPlayedAt))
      rw [← buildGroup_lastPlayedAt, ← buildGroup_lastPlayedAt] at e
      exact toWithBot_inj _ _ e
    · show (buildGroup s₁ r₁).totalPlayCount = (buildGroup s₂ r₂).totalPlayCount
      rw [buildGroup_totalPlayCount, buildGroup_totalPlayCount]
      exact (hg.map (fun x => x.playCount)).sum_eq
    · show (buildGroup s₁ r₁).maxItemPlayCount = (buildGroup s₂ r₂).maxItemPlayCount
      have e := perm_maximum_eq _ _ ((hg.map (fun x => x.playCount)).cons (0 : ℚ))
      rw [buildGroup_maxItemPlayCount, buildGroup_maxItemPlayCount] at e
      exact WithBot.coe_inj.mp e
    · show (buildGroup s₁ r₁).itemsWithPlays = (buildGroup s₂ r₂).itemsWithPlays
      rw [buildGroup_itemsWithPlays, buildGroup_itemsWithPlays,
        (hg.filter (fun x => x.playCount > 0)).length_eq]
    · show (buildGroup s₁ r₁).itemCount = (buildGroup s₂ r₂).itemCount
      rw [buildGroup_itemCount, buildGroup_itemCount, hg.length_eq]
    · intro p
      show p ∈ (buildGroup s₁ r₁).paths ↔ p ∈ (buildGroup s₂ r₂).paths
      rw [buildGroup_paths, buildGroup_paths]
      exact (hg.map (fun x => x.path)).mem_iff
    · show ((buildGroup s₁ r₁).sourceItems).Perm ((buildGroup s₂ r₂).sourceItems)
      rw [buildGroup_sourceItems, buildGroup_sourceItems]
      exact hg

/-- Witness for the amended C3: the swapped two-episode season. -/
theorem aggregateMediaUnits_perm_invariant_witness :
    ([wSrcA, wSrcB] : List MediaSource).Perm [wSrcB, wSrcA] ∧
    ((aggregateMediaUnits [wSrcA, wSrcB]).map (fun u => u.id)).Perm
      ((aggregateMediaUnits [wSrcB, wSrcA]).map (fun u => u.id)) := by
  have hperm : ([wSrcA, wSrcB] : List MediaSource).Perm [wSrcB, wSrcA] :=
    List.Perm.swap wSrcB wSrcA []
  exact ⟨hperm, (aggregateMediaUnits_perm_invariant [wSrcA, wSrcB] [wSrcB, wSrcA] hperm).1⟩

/-! ### Grouping identity (claim C9) -/

theorem unitKey_eq_claimGroupKey (s : MediaSource) : unitKey s = claimGroupKey s := by
  by_cases h : s.mediaKind = SourceKind.movie
  · rw [unitKey, determineUnitIdentity, if_pos h, claimGroupKey, if_pos h]
  · rw [unitKey, determineUnitIdentity, if_neg h, claimGroupKey, if_neg h]
    cases s.seasonKey <;> cases s.showKey <;> rfl

theorem identityKind_eq_claimUnitKind (s : MediaSource) :
    (determineUnitIdentity s).kind = claimUnitKind s := by
  by_cases h : s.mediaKind = SourceKind.movie
  · rw [determineUnitIdentity, if_pos h, claimUnitKind, if_pos h]
  · rw [determineUnitIdentity, if_neg h, claimUnitKind, if_neg h]

/-- **C9 counterexample.** The per-source key selection is as claimed, but
the resulting unit's kind is not always season for an episode source: when an
episode's season key collides with a movie's id, the episode is merged into
the earlier movie unit, whose kind is movie. -/
theorem aggregateMediaUnits_kind_collision :
    unitKey wEpX = "X" ∧ wEpX.mediaKind = SourceKind.episode ∧
    claimUnitKind wEpX = MediaKind.season ∧
    (aggregateMediaUnits [wMovie, wEpX]).map (fun u => (u.id, u.kind)) =
      [("X", MediaKind.movie)] ∧
    (aggregateMediaUnits [wMovie, wEpX]).map (fun u => u.sourceItems) =
      [[wMovie, wEpX]] :=
  ⟨rfl, rfl, rfl, rfl, rfl⟩

/-- **C9 (amended).** `determineUnitIdentity` keys a movie source by its own
identifier and any other source by its season key, else show key, else own
identifier, with kind movie resp. season; every source lands in the unit
aggregated under that key; and the resulting unit's kind is movie in the
first case and season otherwise provided the sources sharing the key agree
in case (the unit's kind is taken from the first source observed for its
key, so a movie/episode key collision can override it). -/
theorem determineUnitIdentity_key_and_kind (s : MediaSource) :
    (determineUnitIdentity s).key = claimGroupKey s ∧
    (determineUnitIdentity s).kind = claimUnitKind s ∧
    ∀ sources, s ∈ sources →
      ∃ u ∈ aggregateMediaUnits sources, u.id = claimGroupKey s ∧
        s ∈ u.sourceItems ∧
        ((∀ t ∈ sources, unitKey t = claimGroupKey s →
            claimUnitKind t = claimUnitKind s) →
          u.kind = claimUnitKind s) := by
  refine ⟨unitKey_eq_claimGroupKey s, identityKind_eq_claimUnitKind s, ?_⟩
  intro sources hs
  have hmem : s ∈ constituentsOf sources (claimGroupKey s) :=
    List.mem_filter.mpr ⟨hs, by simp [unitKey_eq_claimGroupKey s]⟩
  rcases hc : constituentsOf sources (claimGroupKey s) with _ | ⟨s₀, r⟩
  · rw [hc] at hmem
    exact absurd hmem (List.not_mem_nil s)
  · have hs₀ : s₀ ∈ constituentsOf sources (claimGroupKey s) := by
      rw [hc]
      exact List.mem_cons_self _ _
    have hk₀ : unitKey s₀ = claimGroupKey s := by
      have h2 := (List.mem_filter.mp hs₀).2
      simpa using h2
    have huid : (finalizeB (buildGroup s₀ r)).id = claimGroupKey s := by
      rw [finalizeB_id, buildGroup_id, hk₀]
    have hu : finalizeB (buildGroup s₀ r) ∈ aggregateMediaUnits sources := by
      refine (mem_aggregateMediaUnits sources _).mpr ⟨buildGroup s₀ r, ?_, rfl⟩
      rw [huid, groupBuildFor, hc]
    refine ⟨finalizeB (buildGroup s₀ r), hu, huid, ?_, ?_⟩
    · show s ∈ (buildGroup s₀ r).sourceItems
      rw [buildGroup_sourceItems, ← hc]
      exact hmem
    · intro hhom
      show (buildGroup s₀ r).kind = claimUnitKind s
      rw [buildGroup_kind, identityKind_eq_claimUnitKind]
      exact hhom s₀ (List.mem_filter.mp hs₀).1 hk₀

/-- Witness for the amended C9: a lone episode source. -/
theorem determineUnitIdentity_key_and_kind_witness :
    wEpX ∈ [wEpX] ∧
    (∀ t ∈ [wEpX], unitKey t = claimGroupKey wEpX →
      claimUnitKind t = claimUnitKind wEpX) ∧
    ∃ u ∈ aggregateMediaUnits [wEpX], u.id = claimGroupKey wEpX ∧
      wEpX ∈ u.sourceItems ∧ u.kind = claimUnitKind wEpX := by
  have h1 : wEpX ∈ [wEpX] := List.mem_singleton_self _
  have hhom : ∀ t ∈ [wEpX], unitKey t = claimGroupKey wEpX →
      claimUnitKind t = claimUnitKind wEpX := by
    intro t ht
    rw [List.mem_singleton.mp ht]
    intro
    rfl
  obtain ⟨u, hu, hid, hsi, hkind⟩ :=
    (determineUnitIdentity_key_and_kind wEpX).2.2 [wEpX] h1
  exact ⟨h1, hhom, u, hu, hid, hsi, hkind hhom⟩

/-! ### EpisodeCache (claims C2, C7) -/

theorem dbGet_nil (k : String) : dbGet [] k = none :=
  rfl

theorem dbGet_cons (c : String × CacheRow) (st : CacheState) (k : String) :
    dbGet (c :: st) k = if c.1 = k then some c.2 else dbGet st k := by
  rw [dbGet, dbGet, List.find?_cons]
  by_cases h : c.1 = k
  · simp [h]
  · simp [h]

theorem dbGet_append_row (st : CacheState) (k : String) (row : CacheRow)
    (h : dbGet st k = none) : dbGet (st ++ [(k, row)]) k = some row := by
  induction st with
  | nil =>
    rw [List.nil_append, dbGet_cons]
    simp
  | cons c st ih =>
    rw [dbGet_cons] at h
    by_cases hc : c.1 = k
    · rw [if_pos hc] at h
      exact Option.noConfusion h
    · rw [if_neg hc] at h
      rw [List.cons_append, dbGet_cons, if_neg hc]
      exact ih h

theorem dbGet_map_replace (st : CacheState) (k : String) (row : CacheRow)
    (h : (dbGet st k).isSome) :
    dbGet (st.map (fun r => if r.1 = k then (k, row) else r)) k = some row := by
  induction st with
  | nil => simp [dbGet_nil] at h
  | cons c st ih =>
    by_cases hc : c.1 = k
    · rw [List.map_cons, if_pos hc, dbGet_cons]
      simp
    · rw [List.map_cons, if_neg hc, dbGet_cons, if_neg hc]
      rw [dbGet_cons, if_neg hc] at h
      exact ih h

theorem dbGet_upsert_self (st : CacheState) (k : String) (row : CacheRow) :
    dbGet (dbUpsert st k row) k = some row := by
  rw [dbUpsert]
  by_cases h : (st.find? (fun r => r.1 = k)).isSome
  · rw [if_pos h]
    exact dbGet_map_replace st k row (by simpa [dbGet] using h)
  · rw [if_neg h]
    refine dbGet_append_row st k row ?_
    rcases hf : st.find? (fun r => r.1 = k) with _ | v
    · rw [dbGet, hf]
      rfl
    · rw [hf] at h
      simp at h

theorem dbGet_delete_self (st : CacheState) (k : String) :
    dbGet (dbDelete st k) k = none := by
  induction st with
  | nil => rfl
  | cons c st ih =>
    rw [dbDelete, List.filter_cons]
    by_cases hc : c.1 = k
    · rw [if_neg (by simp [hc])]
      exact ih
    · rw [if_pos (by simp [hc]), dbGet_cons, if_neg hc]
      exact ih

theorem cacheLoad_miss (st : CacheState) (k : String) (tok now : ℚ)
    (h : dbGet st k = none) : cacheLoad st k tok now = (none, st) := by
  simp only [cacheLoad, h]

theorem jsOrZero_eq (q : ℚ) : jsOrZero q = q := by
  rw [jsOrZero]
  by_cases h : q = 0
  · rw [if_pos h, h]
  · rw [if_neg h]

/-- **C7.** Cache round-trip: saving an episode list and immediately loading
it with the same key and freshness token returns the saved list. -/
theorem episodeCache_save_load_roundTrip (st : CacheState) (showKey : String)
    (showUpdatedAt now : ℚ) (episodes : List CachedEpisode) :
    (cacheLoad (cacheSave st showKey showUpdatedAt episodes now)
      showKey showUpdatedAt now).1 = some episodes := by
  have hg : dbGet (cacheSave st showKey showUpdatedAt episodes now) showKey =
      some { show_updated_at := showUpdatedAt, fetched_at := now,
             payload := some episodes } := by
    rw [cacheSave, jsOrZero_eq]
    exact dbGet_upsert_self st showKey _
  simp only [cacheLoad, hg]
  rw [if_neg (by simp), if_neg (by rw [sub_self]; norm_num [CACHE_TTL_MS])]

/-- **C2.** `load` returns the stored list exactly when the stored token
matches, the age is within 7 days, and the payload parses; any other case
with an existing row deletes that row and misses, after which every load for
that key misses until a new save. -/
theorem episodeCache_load_validity (st : CacheState) (k : String) (tok now : ℚ)
    (row : CacheRow) (hrow : dbGet st k = some row) :
    (∀ eps, (cacheLoad st k tok now).1 = some eps ↔
      (row.show_updated_at = tok ∧ now - row.fetched_at ≤ CACHE_TTL_MS ∧
        row.payload = some eps)) ∧
    (¬ (row.show_updated_at = tok ∧ now - row.fetched_at ≤ CACHE_TTL_MS ∧
        row.payload.isSome) →
      cacheLoad st k tok now = (none, dbDelete st k) ∧
      ∀ tok2 now2, cacheLoad (dbDelete st k) k tok2 now2 = (none, dbDelete st k)) := by
  have hsub : ∀ tok2 now2, cacheLoad (dbDelete st k) k tok2 now2 =
      (none, dbDelete st k) := by
    intro tok2 now2
    exact cacheLoad_miss _ _ _ _ (dbGet_delete_self st k)
  by_cases h1 : row.show_updated_at = tok
  · by_cases h2 : now - row.fetched_at ≤ CACHE_TTL_MS
    · cases hp : row.payload with
      | some eps0 =>
        have hload : cacheLoad st k tok now = (some eps0, st) := by
          simp only [cacheLoad, hrow]
          rw [if_neg (by simp [h1]), if_neg (not_lt.mpr h2), hp]
        constructor
        · intro eps
          rw [hload]
          constructor
          · intro he
            exact ⟨h1, h2, he⟩
          · rintro ⟨-, -, he⟩
            exact he
        · intro habs
          exact absurd ⟨h1, h2, rfl⟩ habs
      | none =>
        have hload : cacheLoad st k tok now = (none, dbDelete st k) := by
          simp only [cacheLoad, hrow]
          rw [if_neg (by simp [h1]), if_neg (not_lt.mpr h2), hp]
        constructor
        · intro eps
          rw [hload]
          simp [hp]
        · intro _
          exact ⟨hload, hsub⟩
    · have hload : cacheLoad st k tok now = (none, dbDelete st k) := by
        simp only [cacheLoad, hrow]
        rw [if_neg (by simp [h1]), if_pos (not_le.mp h2)]
      constructor
      · intro eps
        rw [hload]
        simp [h2]
      · intro _
        exact ⟨hload, hsub⟩
  · have hload : cacheLoad st k tok now = (none, dbDelete st k) := by
      simp only [cacheLoad, hrow]
      rw [if_pos h1]
    constructor
    · intro eps
      rw [hload]
      simp [h1]
    · intro _
      exact ⟨hload, hsub⟩

/-- Witness for C2: a stored row loaded with a mismatched token. -/
theorem episodeCache_load_validity_witness :
    dbGet [("k", wRow)] "k" = some wRow ∧
    (∀ eps, (cacheLoad [("k", wRow)] "k" 43 1000).1 = some eps ↔
      (wRow.show_updated_at = 43 ∧ (1000 : ℚ) - wRow.fetched_at ≤ CACHE_TTL_MS ∧
        wRow.payload = some eps)) ∧
    (¬ (wRow.show_updated_at = 43 ∧ (1000 : ℚ) - wRow.fetched_at ≤ CACHE_TTL_MS ∧
        wRow.payload.isSome) →
      cacheLoad [("k", wRow)] "k" 43 1000 = (none, dbDelete [("k", wRow)] "k") ∧
      ∀ tok2 now2, cacheLoad (dbDelete [("k", wRow)] "k") "k" tok2 now2 =
        (none, dbDelete [("k", wRow)] "k")) := by
  have hrow : dbGet [("k", wRow)] "k" = some wRow := by
    rw [dbGet_cons]
    simp
  exact ⟨hrow, episodeCache_load_validity [("k", wRow)] "k" 43 1000 wRow hrow⟩

/-! ### HistoryReconciler (claim C6) -/

theorem findStat_nil (k : String) : findStat [] k = none :=
  rfl

theorem findStat_cons (c : String × EpisodeHistoryStat) (m : StatsMap) (k : String) :
    findStat (c :: m) k = if c.1 = k then some c.2 else findStat m k := by
  rw [findStat, findStat, List.find?_cons]
  by_cases h : c.1 = k
  · simp [h]
  · simp [h]

theorem findStat_updateStat (kt k : String)
    (f : EpisodeHistoryStat → EpisodeHistoryStat) (m : StatsMap) :
    findStat (updateStat kt f m) k =
      if kt = k then (findStat m k).map f else findStat m k := by
  induction m with
  | nil =>
    by_cases h : kt = k <;> simp [updateStat, findStat_nil, h]
  | cons c m ih =>
    by_cases hc : c.1 = kt
    · rw [updateStat, if_pos hc, findStat_cons, findStat_cons]
      by_cases hk : kt = k
      · rw [if_pos (hc.trans hk), if_pos (hc.trans hk), if_pos hk, Option.map_some']
      · rw [if_neg (fun h => hk (hc ▸ h)), if_neg (fun h => hk (hc ▸ h)), if_neg hk]
    · rw [updateStat, if_neg hc, findStat_cons, findStat_cons]
      by_cases hck : c.1 = k
      · have hk : ¬ kt = k := fun h => hc (hck.trans h.symm)
        rw [if_pos hck, if_pos hck, if_neg hk]
      · rw [if_neg hck, if_neg hck, ih]

theorem findStat_append_one (m : StatsMap) (p : String × EpisodeHistoryStat)
    (k : String) :
    findStat (m ++ [p]) k = (findStat m k).or (if p.1 = k then some p.2 else none) := by
  induction m with
  | nil =>
    rw [List.nil_append, findStat_cons, findStat_nil, Option.none_or]
  | cons c m ih =>
    rw [List.cons_append, findStat_cons, findStat_cons]
    by_cases hc : c.1 = k
    · rw [if_pos hc, if_pos hc]
      rfl
    · rw [if_neg hc, if_neg hc, ih]

theorem historyStep_skip (m : StatsMap) (e : HistoryEntry)
    (h : entryKey e = none) : historyStep m e = m := by
  simp only [historyStep, h]

theorem historyStep_found (m : StatsMap) (e : HistoryEntry) (key : String)
    (st : EpisodeHistoryStat) (hk : entryKey e = some key)
    (hf : findStat m key = some st) :
    historyStep m e = updateStat key (fun ex => statFold ex e) m := by
  simp only [historyStep, hk, hf]
  rfl

theorem historyStep_fresh (m : StatsMap) (e : HistoryEntry) (key : String)
    (hk : entryKey e = some key) (hf : findStat m key = none) :
    historyStep m e = m ++ [(key, initStat e)] := by
  simp only [historyStep, hk, hf]
  rfl

theorem getShowEpisodeHistory_eq_flat (pages : List (List HistoryEntry)) :
    getShowEpisodeHistory pages = pages.flatten.foldl historyStep [] := by
  rw [getShowEpisodeHistory]
  have h : ∀ (ps : List (List HistoryEntry)) (m : StatsMap),
      ps.foldl (fun m entries => entries.foldl historyStep m) m =
        ps.flatten.foldl historyStep m := by
    intro ps
    induction ps with
    | nil => intro m; rfl
    | cons es ps ih =>
      intro m
      rw [List.foldl_cons, List.flatten_cons, List.foldl_append, ih]
  exact h pages []

/-- The per-identifier characterization of the history fold. -/
theorem findStat_foldl_historyStep (l : List HistoryEntry) (k : String) :
    findStat (l.foldl historyStep []) k =
      match l.filter (fun e => entryKey e = some k) with
      | [] => none
      | e :: es => some (es.foldl statFold (initStat e)) := by
  induction l using List.reverseRecOn with
  | nil => rfl
  | append_singleton l t ih =>
    rw [List.foldl_append, List.foldl_cons, List.foldl_nil]
    have hfil : l.filter (fun e => entryKey e = some k) ++
        (if entryKey t = some k then [t] else []) =
        (l ++ [t]).filter (fun e => entryKey e = some k) := by
      rw [List.filter_append]
      congr 1
      by_cases h : entryKey t = some k
      · simp [h]
      · simp [h]
    cases hkt : entryKey t with
    | none =>
      rw [historyStep_skip _ _ hkt, ih, ← hfil, hkt]
      simp
    | some key =>
      by_cases hkey : key = k
      · subst hkey
        cases hf : findStat (l.foldl historyStep []) key with
        | none =>
          have hfl : l.filter (fun e => entryKey e = some key) = [] := by
            have hg := hf
            rw [ih] at hg
            rcases hc : l.filter (fun e => entryKey e = some key) with _ | ⟨e, es⟩
            · rfl
            · rw [hc] at hg
              exact Option.noConfusion hg
          rw [historyStep_fresh _ _ _ hkt hf, findStat_append_one, hf, Option.none_or,
            ← hfil, hfl, List.nil_append, if_pos hkt]
          rw [if_pos rfl]
          rfl
        | some st =>
          rcases hc : l.filter (fun e => entryKey e = some key) with _ | ⟨e, es⟩
          · have hg := hf
            rw [ih, hc] at hg
            exact Option.noConfusion hg
          · have hg := hf
            rw [ih, hc] at hg
            have hst : es.foldl statFold (initStat e) = st := Option.some.inj hg
            rw [historyStep_found _ _ _ _ hkt hf,
              findStat_updateStat key key (fun ex => statFold ex t) _, if_pos rfl, hf,
              Option.map_some', ← hfil, hc, if_pos hkt, List.cons_append, ← hst]
            show some (statFold (es.foldl statFold (initStat e)) t) =
              some ((es ++ [t]).foldl statFold (initStat e))
            rw [List.foldl_append, List.foldl_cons, List.foldl_nil]
      · have hstep : findStat (historyStep (l.foldl historyStep []) t) k =
            findStat (l.foldl historyStep []) k := by
          cases hf : findStat (l.foldl historyStep []) key with
          | none =>
            rw [historyStep_fresh _ _ _ hkt hf, findStat_append_one, if_neg hkey,
              Option.or_none]
          | some st =>
            rw [historyStep_found _ _ _ _ hkt hf,
              findStat_updateStat key k (fun ex => statFold ex t) _, if_neg hkey]
        have hne : ¬ entryKey t = some k := by
          rw [hkt]
          intro h
          exact hkey (Option.some.inj h)
        rw [hstep, ih, ← hfil, if_neg hne, List.append_nil]

theorem findStat_getShowEpisodeHistory (pages : List (List HistoryEntry))
    (k : String) :
    findStat (getShowEpisodeHistory pages) k = groupStatFor pages k := by
  rw [getShowEpisodeHistory_eq_flat, findStat_foldl_historyStep, groupStatFor,
    historyEntriesFor]

theorem foldl_statFold_playCount (es : List HistoryEntry) (st : EpisodeHistoryStat) :
    (es.foldl statFold st).playCount =
      st.playCount + (es.map (fun e => normalizeHistoryCount e.group_count)).sum := by
  induction es generalizing st with
  | nil => simp
  | cons e es ih =>
    rw [List.foldl_cons, ih, List.map_cons, List.sum_cons]
    show (st.playCount + normalizeHistoryCount e.group_count) + _ = _
    ring

theorem statLastStep_eq_omax (cur : Option ℚ) (t : ℚ) (ht : 0 < t)
    (hc : ∀ v, cur = some v → 0 < v) : statLastStep cur (some t) = omax cur t := by
  simp only [statLastStep]
  rw [if_neg (ne_of_gt ht)]
  cases hcur : cur with
  | none => rfl
  | some v =>
    have hv : 0 < v := hc v hcur
    show (if v = 0 then some t else if t > v then some t else some v) = omax (some v) t
    rw [if_neg (ne_of_gt hv)]
    by_cases h : t > v
    · rw [if_pos h]
      show some t = some (max v t)
      rw [max_eq_right h.le]
    · rw [if_neg h]
      show some v = some (max v t)
      rw [max_eq_left (not_lt.mp h)]

theorem omax_pos (cur : Option ℚ) (t : ℚ) (ht : 0 < t)
    (_hc : ∀ v, cur = some v → 0 < v) :
    ∀ v, omax cur t = some v → 0 < v := by
  intro v hv
  cases hcur : cur with
  | none =>
    rw [hcur] at hv
    rw [← Option.some.inj hv]
    exact ht
  | some w =>
    rw [hcur] at hv
    rw [← Option.some.inj hv]
    exact lt_max_of_lt_right ht

theorem foldl_statFold_lastPlayed (es : List HistoryEntry) (st : EpisodeHistoryStat)
    (hst : ∀ v, st.lastPlayed = some v → 0 < v)
    (hpos : ∀ t ∈ es.filterMap entryStopped, 0 < t) :
    (es.foldl statFold st).lastPlayed =
      (es.filterMap entryStopped).foldl omax st.lastPlayed := by
  induction es generalizing st with
  | nil => rfl
  | cons e es ih =>
    rw [List.foldl_cons]
    cases he : entryStopped e with
    | none =>
      have hcur : (statFold st e).lastPlayed = st.lastPlayed := by
        show statLastStep st.lastPlayed (entryStopped e) = st.lastPlayed
        rw [he]
        rfl
      rw [ih (statFold st e) (by rw [hcur]; exact hst)
        (fun t ht => hpos t (by simp only [List.filterMap_cons, he]; exact ht)), hcur]
      simp only [List.filterMap_cons, he]
    | some t =>
      have ht : 0 < t := hpos t (by simp only [List.filterMap_cons, he]; exact List.mem_cons_self _ _)
      have hcur : (statFold st e).lastPlayed = omax st.lastPlayed t := by
        show statLastStep st.lastPlayed (entryStopped e) = omax st.lastPlayed t
        rw [he]
        exact statLastStep_eq_omax st.lastPlayed t ht hst
      rw [ih (statFold st e) (by rw [hcur]; exact omax_pos st.lastPlayed t ht hst)
        (fun x hx => hpos x (by simp only [List.filterMap_cons, he]; exact List.mem_cons.mpr (Or.inr hx))), hcur]
      simp only [List.filterMap_cons, he, List.foldl_cons]

/-- **C6 counterexample.** With a zero timestamp followed by a negative one,
the recorded `lastPlayed` is not the maximum timestamp seen: a zero
timestamp is falsy in the update guard, so the later negative timestamp
overwrites it. -/
theorem getShowEpisodeHistory_lastPlayed_not_max :
    findStat (getShowEpisodeHistory [[wHistZero, wHistNeg]]) "E1" =
      some { playCount := 2, lastPlayed := some (-5) } ∧
    seenTimestamps (historyEntriesFor [[wHistZero, wHistNeg]] "E1") = [0, -5] ∧
    (seenTimestamps (historyEntriesFor [[wHistZero, wHistNeg]] "E1")).maximum =
      ((0 : ℚ) : WithBot ℚ) ∧
    toWithBot (some (-5 : ℚ)) ≠ ((0 : ℚ) : WithBot ℚ) := by
  refine ⟨?_, rfl, ?_, ?_⟩
  · simp only [getShowEpisodeHistory, List.foldl_cons, List.foldl_nil]
    norm_num [historyStep, findStat, entryKey, entryStopped, normalizeHistoryCount,
      statLastStep, updateStat, wHistZero, wHistNeg, List.find?]
  · rw [show seenTimestamps (historyEntriesFor [[wHistZero, wHistNeg]] "E1") =
      [0, -5] from rfl, maximum_cons_eq_foldl]
    norm_num
  · rw [show toWithBot (some (-5 : ℚ)) = ((-5 : ℚ) : WithBot ℚ) from rfl]
    rw [ne_eq, WithBot.coe_inj]
    norm_num

/-- **C6 (amended).** History reconciliation folds every entry under the
identifier chosen with priority self, then parent, then grandparent rating
key, accumulating play-group counts across all pages (an unparsable or
non-positive `group_count` counting as 1); when all parsed timestamps are
positive (epoch seconds in practice), `lastPlayed` is exactly the maximum
`stopped`/`date` timestamp seen — a zero timestamp is falsy in the update
guard and may be overwritten by a later lower timestamp. -/
theorem getShowEpisodeHistory_reconciliation (pages : List (List HistoryEntry))
    (k : String) (hpos : ∀ t ∈ seenTimestamps pages.flatten, 0 < t) :
    (findStat (getShowEpisodeHistory pages) k = none ↔
      historyEntriesFor pages k = []) ∧
    ∀ st, findStat (getShowEpisodeHistory pages) k = some st →
      st.playCount = ((historyEntriesFor pages k).map
        (fun e => normalizeHistoryCount e.group_count)).sum ∧
      toWithBot st.lastPlayed = (seenTimestamps (historyEntriesFor pages k)).maximum := by
  have hmaster := findStat_getShowEpisodeHistory pages k
  have hposg : ∀ t ∈ seenTimestamps (historyEntriesFor pages k), 0 < t := by
    intro t ht
    rcases List.mem_filterMap.mp ht with ⟨e, he, hes⟩
    exact hpos t (List.mem_filterMap.mpr
      ⟨e, (List.mem_filter.mp he).1, hes⟩)
  rcases hc : historyEntriesFor pages k with _ | ⟨e, es⟩
  · rw [groupStatFor, hc] at hmaster
    refine ⟨by rw [hmaster]; simp, ?_⟩
    intro st hst
    rw [hmaster] at hst
    exact Option.noConfusion hst
  · rw [groupStatFor, hc] at hmaster
    constructor
    · rw [hmaster]
      simp
    · intro st hst
      rw [hmaster] at hst
      have hste : es.foldl statFold (initStat e) = st := Option.some.inj hst
      rw [hc] at hposg
      constructor
      · rw [← hste, foldl_statFold_playCount]
        show normalizeHistoryCount e.group_count + _ = _
        rw [List.map_cons, List.sum_cons]
      · rw [← hste]
        have hinit : ∀ v, (initStat e).lastPlayed = some v → 0 < v := by
          intro v hv
          refine hposg v ?_
          show v ∈ (e :: es).filterMap entryStopped
          have he : entryStopped e = some v := hv
          simp only [List.filterMap_cons, he]
          exact List.mem_cons_self _ _
        have hrest : ∀ t ∈ es.filterMap entryStopped, 0 < t := by
          intro t ht
          refine hposg t ?_
          show t ∈ (e :: es).filterMap entryStopped
          cases he : entryStopped e
          · simp only [List.filterMap_cons, he]
            exact ht
          · simp only [List.filterMap_cons, he]
            exact List.mem_cons.mpr (Or.inr ht)
        rw [foldl_statFold_lastPlayed es (initStat e) hinit hrest,
          show (initStat e).lastPlayed = entryStopped e from rfl]
        cases he : entryStopped e with
        | none =>
          rw [show seenTimestamps (e :: es) = es.filterMap entryStopped by
            rw [seenTimestamps]
            simp only [List.filterMap_cons, he]]
          exact toWithBot_foldl_omax_none _
        | some t =>
          rw [show seenTimestamps (e :: es) = t :: es.filterMap entryStopped by
            rw [seenTimestamps]
            simp only [List.filterMap_cons, he],
            maximum_cons_eq_foldl, foldl_omax_some]
          rfl

/-- Witness for the amended C6: the two-page 3-plays/2-plays scenario merges
to 5 plays with the more recent timestamp. -/
theorem getShowEpisodeHistory_reconciliation_witness :
    (∀ t ∈ seenTimestamps ([[wHist1], [wHist2]] : List (List HistoryEntry)).flatten,
      0 < t) ∧
    findStat (getShowEpisodeHistory [[wHist1], [wHist2]]) "E1" =
      some { playCount := 5, lastPlayed := some 500 } ∧
    ({ playCount := 5, lastPlayed := some 500 } : EpisodeHistoryStat).playCount =
      ((historyEntriesFor [[wHist1], [wHist2]] "E1").map
        (fun e => normalizeHistoryCount e.group_count)).sum ∧
    toWithBot ({ playCount := 5, lastPlayed := some 500 } : EpisodeHistoryStat).lastPlayed =
      (seenTimestamps (historyEntriesFor [[wHist1], [wHist2]] "E1")).maximum := by
  have hpos : ∀ t ∈ seenTimestamps ([[wHist1], [wHist2]] :
      List (List HistoryEntry)).flatten, 0 < t := by
    intro t ht
    rw [show seenTimestamps ([[wHist1], [wHist2]] :
      List (List HistoryEntry)).flatten = [500, 400] from rfl] at ht
    rcases List.mem_cons.mp ht with rfl | ht2
    · norm_num
    · rw [List.mem_singleton.mp ht2]
      norm_num
  have hfind : findStat (getShowEpisodeHistory [[wHist1], [wHist2]]) "E1" =
      some { playCount := 5, lastPlayed := some 500 } := by
    simp only [getShowEpisodeHistory, List.foldl_cons, List.foldl_nil]
    norm_num [historyStep, findStat, entryKey, entryStopped, normalizeHistoryCount,
      statLastStep, updateStat, wHist1, wHist2, List.find?]
  exact ⟨hpos, hfind,
    ((getShowEpisodeHistory_reconciliation [[wHist1], [wHist2]] "E1" hpos).2 _ hfind).1,
    ((getShowEpisodeHistory_reconciliation [[wHist1], [wHist2]] "E1" hpos).2 _ hfind).2⟩

end Vacuum
